import Mathlib

set_option linter.unusedVariables false

/-!
Verification development for the shell-mcp server (shell_mcp_server.py).

Commands and all other Python strings are modelled as `List Char`.
Compiled regular expressions are modelled abstractly by a `Matcher`
(`matchStart` models `regex.match`, `search` models `regex.search`);
`re.compile` is modelled by a parameter `compile : List Char → Option Matcher`
(`none` models a pattern whose compilation raises `re.error`).
Wall-clock times are modelled as integers.
-/

/-- Python whitespace for `str.strip`, `str.split()` and the regex class
`\s` (ASCII part): space, tab, newline, carriage return, vertical tab,
form feed. -/
def pyIsSpace (c : Char) : Bool :=
  c = ' ' || c = '\t' || c = '\n' || c = '\r' || c = Char.ofNat 11 || c = Char.ofNat 12

/-- Remove trailing Python whitespace (the right half of `str.strip()`). -/
def dropTrailWs : List Char → List Char
  | [] => []
  | c :: cs =>
    match dropTrailWs cs with
    | [] => if pyIsSpace c then [] else [c]
    | r => c :: r

/-- Python `str.strip()`: remove leading and trailing whitespace. -/
def pyStrip (l : List Char) : List Char :=
  (dropTrailWs l).dropWhile pyIsSpace

/-- Python `str.split(None, 1)`: skip leading whitespace, cut off the first
whitespace-free token, then skip the separating whitespace run; the rest is
returned verbatim (dropped entirely if it is empty). -/
def pySplitWs1 (l : List Char) : List (List Char) :=
  let l0 := l.dropWhile pyIsSpace
  if l0.isEmpty then []
  else
    let tok := l0.takeWhile (fun c => !pyIsSpace c)
    let rest := (l0.dropWhile (fun c => !pyIsSpace c)).dropWhile pyIsSpace
    if rest.isEmpty then [tok] else [tok, rest]

/-- Python `str.lower()` (ASCII behaviour suffices for the commands here). -/
def lowerStr (l : List Char) : List Char := l.map Char.toLower

/-- Python substring test `pat in hay` for strings. -/
def hasSub (pat : List Char) : List Char → Bool
  | [] => pat.isEmpty
  | c :: rest => pat.isPrefixOf (c :: rest) || hasSub pat rest

/-- `CommandFilter._extract_main_command`: strip whitespace, drop a single
leading `NAME=value` assignment token when the remaining text forms a second
token, truncate at the first `#` (comment), strip again. -/
def extract_main_command (command : List Char) : List Char :=
  let c1 := pyStrip command
  let c2 :=
    if c1.contains '=' && !(c1.head? == some '=') then
      match pySplitWs1 c1 with
      | [tok, rest] =>
        if tok.contains '=' && !(tok.head? == some '=') then rest else c1
      | _ => c1
    else c1
  let c3 := if c2.contains '#' then pyStrip (c2.takeWhile (fun c => c != '#')) else c2
  pyStrip c3

/-- The five help/version markers excluded by `check_dangerous_command`. -/
def helpPatterns : List (List Char) :=
  [("--help").data, ("--version").data, ("-h").data, ("-v").data, ("--usage").data]

/-- The concrete regex `^\s*rm\s+` applied with `.match` (anchored at the
start): optional leading whitespace, then `rm`, then at least one
whitespace character. -/
def rmMatch (l : List Char) : Bool :=
  match l.dropWhile pyIsSpace with
  | a :: b :: c :: _ => a = 'r' && b = 'm' && pyIsSpace c
  | _ => false

/-- `CommandFilter.check_dangerous_command`: normalize, test `^\s*rm\s+`,
and exclude commands whose lowercased normalized text contains one of the
help markers.  The category string is the source's constant `"删除命令"`
(rendered "deletion command" in the specification). -/
def check_dangerous_command (command : List Char) : Bool × List Char :=
  let main := extract_main_command command
  if rmMatch main then
    if helpPatterns.any (fun hp => hasSub hp (lowerStr main)) then (false, [])
    else (true, ("删除命令").data)
  else (false, [])

/-- A compiled regex, abstracted by its two observable operations. -/
structure Matcher where
  matchStart : List Char → Bool
  search : List Char → Bool

/-- One `(pattern, regex)` entry of a rule list. -/
structure Rule where
  pattern : List Char
  regex : Matcher

/-- The state built by `CommandFilter.__init__`. -/
structure CommandFilter where
  whitelist_patterns : List (List Char)
  blacklist_patterns : List (List Char)
  whitelist_enabled : Bool
  whitelist_rules : List Rule
  blacklist_rules : List Rule

/-- The per-pattern compile loop of `CommandFilter.__init__`: each pattern
that compiles contributes a `(pattern, regex)` rule, a pattern whose
compilation fails is dropped (and logged). -/
def compileRules (compile : List Char → Option Matcher) (pats : List (List Char)) : List Rule :=
  pats.filterMap (fun p => (compile p).map (fun m => { pattern := p, regex := m }))

/-- `CommandFilter.__init__` on a config carrying the `whitelist` and
`blacklist` pattern lists.  Note `whitelist_enabled = bool(self.whitelist_patterns)`
is derived from the configured patterns, before compilation. -/
def CommandFilter.init (config_whitelist config_blacklist : List (List Char))
    (compile : List Char → Option Matcher) : CommandFilter :=
  { whitelist_patterns := config_whitelist
    blacklist_patterns := config_blacklist
    whitelist_enabled := !config_whitelist.isEmpty
    whitelist_rules := compileRules compile config_whitelist
    blacklist_rules := compileRules compile config_blacklist }

/-- The blacklist loop of `is_allowed`: a pattern anchored with `^` is tried
with `match` only; an unanchored pattern with `match` first, then `search`.
The first hit returns that rule's pattern. -/
def blacklistLoop (main : List Char) : List Rule → Option (List Char)
  | [] => none
  | r :: rest =>
    if r.pattern.head? == some '^' then
      if r.regex.matchStart main then some r.pattern else blacklistLoop main rest
    else if r.regex.matchStart main then some r.pattern
    else if r.regex.search main then some r.pattern
    else blacklistLoop main rest

/-- The whitelist loop of `is_allowed`: any rule hitting with `match` or
`search` allows. -/
def whitelistLoop (main : List Char) : List Rule → Bool
  | [] => false
  | r :: rest =>
    if r.regex.matchStart main || r.regex.search main then true
    else whitelistLoop main rest

/-- `CommandFilter.is_allowed`, returning `(allowed, reason, matched_rule)`. -/
def CommandFilter.is_allowed (f : CommandFilter) (command : List Char) :
    Bool × List Char × Option (List Char) :=
  let main := extract_main_command command
  match blacklistLoop main f.blacklist_rules with
  | some pat => (false, ("命令被黑名单规则拒绝: ").data ++ pat, some pat)
  | none =>
    if f.whitelist_enabled then
      if whitelistLoop main f.whitelist_rules then (true, ("命令通过白名单检查").data, none)
      else (false, ("命令不在白名单中").data, none)
    else (true, ("命令通过过滤检查").data, none)

/-- Claim-side test for one deny rule, from the spec's words: for a rule whose
pattern begins with `^` only a start-match counts, for an unanchored rule a
start-match or an anywhere-search counts. -/
def denyRuleHits (r : Rule) (main : List Char) : Bool :=
  if r.pattern.head? == some '^' then r.regex.matchStart main
  else r.regex.matchStart main || r.regex.search main

/-- Claim-side test for one allow rule: start-match or anywhere-search. -/
def allowRuleHits (r : Rule) (main : List Char) : Bool :=
  r.regex.matchStart main || r.regex.search main

/-- `evaluate` as the specification words it (claim C1): the first matching
deny rule wins regardless of allow-list contents; otherwise, with a non-empty
configured allow-list the command is allowed iff some allow rule matches, and
with an empty allow-list it is allowed.  Returns `(allowed, matched deny rule)`. -/
def evaluateSpec (f : CommandFilter) (command : List Char) : Bool × Option (List Char) :=
  let main := extract_main_command command
  match f.blacklist_rules.find? (fun r => denyRuleHits r main) with
  | some r => (false, some r.pattern)
  | none =>
    if !f.whitelist_patterns.isEmpty then
      (f.whitelist_rules.any (fun r => allowRuleHits r main), none)
    else (true, none)

theorem blacklistLoop_eq_find (main : List Char) (rs : List Rule) :
    blacklistLoop main rs = (rs.find? (fun r => denyRuleHits r main)).map (fun r => r.pattern) := by
  induction rs with
  | nil => rfl
  | cons r rest ih =>
    by_cases hd : denyRuleHits r main = true
    · have hfind : List.find? (fun r => denyRuleHits r main) (r :: rest) = some r := by
        simp [List.find?, hd]
      rw [hfind]
      unfold denyRuleHits at hd
      by_cases hanch : (r.pattern.head? == some '^') = true
      · rw [if_pos hanch] at hd
        simp [blacklistLoop, hanch, hd]
      · rw [if_neg hanch] at hd
        rcases (show r.regex.matchStart main = true ∨ r.regex.search main = true by
          simpa using hd) with hm | hs
        · simp [blacklistLoop, hanch, hm]
        · by_cases hm : r.regex.matchStart main = true
          · simp [blacklistLoop, hanch, hm]
          · simp [blacklistLoop, hanch, hm, hs]
    · have hfind : List.find? (fun r => denyRuleHits r main) (r :: rest)
          = List.find? (fun r => denyRuleHits r main) rest := by
        simp [List.find?, Bool.eq_false_iff.mpr hd]
      rw [hfind, ← ih]
      unfold denyRuleHits at hd
      by_cases hanch : (r.pattern.head? == some '^') = true
      · rw [if_pos hanch] at hd
        simp [blacklistLoop, hanch, Bool.eq_false_iff.mpr hd]
      · rw [if_neg hanch] at hd
        simp only [Bool.or_eq_true, not_or, Bool.not_eq_true] at hd
        simp [blacklistLoop, hanch, hd.1, hd.2]

theorem whitelistLoop_eq_any (main : List Char) (rs : List Rule) :
    whitelistLoop main rs = rs.any (fun r => allowRuleHits r main) := by
  induction rs with
  | nil => rfl
  | cons r rest ih =>
    by_cases h : (r.regex.matchStart main || r.regex.search main) = true
    · simp [whitelistLoop, allowRuleHits, h]
    · simp only [Bool.or_eq_true, not_or, Bool.not_eq_true] at h
      simp [whitelistLoop, allowRuleHits, h.1, h.2, ih]

/-- Claim C1: for every configuration and command, `is_allowed` decides and
reports the matched deny rule exactly as the specification describes
`evaluate`: the normalized command is denied iff some deny rule matches it
(anchored rules by a start-match only, unanchored rules by a start-match or
an anywhere-search), the first matching deny rule winning regardless of
allow-list contents; a command matching no deny rule is allowed by default
when the configured allow-list is empty, and otherwise allowed iff some
successfully compiled allow rule matches (start-match or anywhere-search). -/
theorem C1_is_allowed_matches_evaluateSpec (wl bl : List (List Char))
    (compile : List Char → Option Matcher) (command : List Char) :
    (((CommandFilter.init wl bl compile).is_allowed command).1,
      ((CommandFilter.init wl bl compile).is_allowed command).2.2) =
      evaluateSpec (CommandFilter.init wl bl compile) command := by
  have hloop := blacklistLoop_eq_find (extract_main_command command)
    (CommandFilter.init wl bl compile).blacklist_rules
  have hwloop := whitelistLoop_eq_any (extract_main_command command)
    (CommandFilter.init wl bl compile).whitelist_rules
  simp only [CommandFilter.is_allowed, evaluateSpec, hloop, hwloop]
  cases hf : List.find? (fun r => denyRuleHits r (extract_main_command command))
      (CommandFilter.init wl bl compile).blacklist_rules with
  | some r => simp
  | none =>
    simp only [Option.map_none']
    by_cases hwl : ((wl.isEmpty : Bool) = true)
    · have h1 : (CommandFilter.init wl bl compile).whitelist_enabled = false := by
        simp [CommandFilter.init, hwl]
      have h2 : ((CommandFilter.init wl bl compile).whitelist_patterns.isEmpty : Bool) = true := hwl
      rw [h1, h2]
      simp
    · have h1 : (CommandFilter.init wl bl compile).whitelist_enabled = true := by
        simp [CommandFilter.init, Bool.eq_false_iff.mpr hwl]
      have h2 : ((CommandFilter.init wl bl compile).whitelist_patterns.isEmpty : Bool) = false :=
        Bool.eq_false_iff.mpr hwl
      rw [h1, h2]
      by_cases hany : ((CommandFilter.init wl bl compile).whitelist_rules.any
          (fun r => allowRuleHits r (extract_main_command command))) = true
      · rw [hany]
        simp
      · rw [Bool.eq_false_iff.mpr hany]
        simp

/-! ## Executors -/

/-- A command execution result (`ExecuteResult` dataclass). -/
structure ExecuteResult where
  stdout : List Char
  stderr : List Char
  exit_code : Int
  execution_time : Int
deriving DecidableEq, Repr

/-- Outcome of the external backend call wrapped by an executor's
`try`/`except`: either the captured data, or a raised exception's
description `str(e)`. -/
inductive BackendOutcome (α : Type)
  | ok (v : α)
  | exn (desc : List Char)
deriving DecidableEq, Repr

/-- The single-quote character (written by code point to keep string
literals plain). -/
def squote : Char := Char.ofNat 39

/-- The `export K='V'; ... ; ` prefix built by `SSHExecutor.execute_command`
for a non-empty environment (empty string for an empty one). -/
def sshExportString (env : List (List Char × List Char)) : List Char :=
  if env.isEmpty then []
  else
    (List.intercalate ("; ").data
      (env.map (fun kv => ("export ").data ++ kv.1 ++ ['=', squote] ++ kv.2 ++ [squote])))
    ++ ("; ").data

/-- `LocalExecutor.execute_command`.  The backend
(`asyncio.create_subprocess_shell` + `communicate`, including the merge of
`os.environ` with the passed env) is abstracted as a function of the
command, the env overrides and `cwd`; `t0`/`t1` are the wall-clock readings
around the call.  A reported exit code of `None` defaults to `0`
(`process.returncode or 0`); any exception becomes
`{stdout: "", stderr: "本地命令执行失败: <desc>", exit_code: 1}`. -/
def LocalExecutor.execute_command
    (backend : List Char → List (List Char × List Char) → Option (List Char) →
      BackendOutcome (List Char × List Char × Option Int))
    (t0 t1 : Int) (command : List Char) (env : List (List Char × List Char))
    (cwd : Option (List Char)) : ExecuteResult :=
  match backend command env cwd with
  | .ok (out, err, code) =>
    { stdout := out, stderr := err, exit_code := code.getD 0, execution_time := t1 - t0 }
  | .exn d =>
    { stdout := [], stderr := ("本地命令执行失败: ").data ++ d, exit_code := 1,
      execution_time := t1 - t0 }

/-- `SSHExecutor.execute_command`.  The backend (`ssh_client.exec_command`
and the reads, run in an executor thread) is abstracted as a function of the
full command (export prefix + command); stdout/stderr are already decoded
(`errors="replace"`), and the remote exit status is always an integer.  Any
exception becomes `{stdout: "", stderr: "SSH命令执行失败: <desc>", exit_code: 1}`. -/
def SSHExecutor.execute_command
    (backend : List Char → BackendOutcome (List Char × List Char × Int))
    (t0 t1 : Int) (command : List Char) (env : List (List Char × List Char)) : ExecuteResult :=
  match backend (sshExportString env ++ command) with
  | .ok (out, err, code) =>
    { stdout := out, stderr := err, exit_code := code, execution_time := t1 - t0 }
  | .exn d =>
    { stdout := [], stderr := ("SSH命令执行失败: ").data ++ d, exit_code := 1,
      execution_time := t1 - t0 }

/-! ## Session manager -/

/-- One session record (the dict created by `SessionManager.get_session`).
`ssh_client` holds an abstract connection identifier. -/
structure Session where
  host : Option (List Char)
  username : Option (List Char)
  ssh_client : Option Nat
  created : Int
  last_used : Int
  local_env : List (List Char × List Char)
deriving DecidableEq, Repr

/-- The store of `SessionManager`: an insertion-ordered dict modelled as an
association list, plus the configured timeout. -/
structure SessionState where
  sessions : List (List Char × Session)
  session_timeout : Int
deriving DecidableEq, Repr

/-- Python dict lookup `d.get(k)` on the association list. -/
def dictGet {β : Type} (m : List (List Char × β)) (k : List Char) : Option β :=
  (m.find? (fun e => e.1 == k)).map (fun e => e.2)

/-- `SessionManager._cleanup_session`: if the id is present, close its ssh
client (close errors are ignored; the returned list records the closed
connection) and delete the entry. -/
def SessionManager.cleanup_session (st : SessionState) (sid : List Char) :
    SessionState × List Nat :=
  match dictGet st.sessions sid with
  | none => (st, [])
  | some s =>
    ({ st with sessions := st.sessions.filter (fun e => !(e.1 == sid)) }, s.ssh_client.toList)

/-- The eviction sweep of `get_session`: run `_cleanup_session` on each
expired id in order, accumulating the closed connections. -/
def sweepFold (init : SessionState × List Nat) (sids : List (List Char)) :
    SessionState × List Nat :=
  sids.foldl (fun acc sid =>
    let r := SessionManager.cleanup_session acc.1 sid
    (r.1, acc.2 ++ r.2)) init

/-- Whether a session is expired at time `now`: `now - last_used > timeout`. -/
def sessionExpired (now timeout : Int) (s : Session) : Bool :=
  now - s.last_used > timeout

/-- The ids collected by the expiry sweep of `get_session`. -/
def expiredIds (st : SessionState) (now : Int) : List (List Char) :=
  (st.sessions.filter (fun e => sessionExpired now st.session_timeout e.2)).map
    (fun e => e.1)

/-- `SessionManager.get_session`: under the lock, collect the expired ids,
clean each up, then return the existing session for `session_id` with
`last_used` refreshed, or create and insert a new one (with the host and
username hints).  Returns the session, the new store and the list of
connections closed by the sweep. -/
def SessionManager.get_session (st : SessionState) (now : Int) (session_id : List Char)
    (host username : Option (List Char)) : Session × SessionState × List Nat :=
  let swept := sweepFold (st, []) (expiredIds st now)
  match dictGet swept.1.sessions session_id with
  | none =>
    let s : Session := { host := host, username := username, ssh_client := none,
                         created := now, last_used := now, local_env := [] }
    (s, { swept.1 with sessions := swept.1.sessions ++ [(session_id, s)] }, swept.2)
  | some s =>
    let s' := { s with last_used := now }
    (s', { swept.1 with
            sessions := swept.1.sessions.map (fun e => if e.1 == session_id then (e.1, s') else e) },
      swept.2)

/-! ## Dispatcher and tool call -/

/-- A `tools/call` tool result dict: one text content block, the `isError`
flag, and (only on the confirmation path) `requires_confirmation` and
`dangerous_command`; `requiresConfirmation = false` / `dangerousCommand = none`
model the keys being absent. -/
structure ToolResult where
  contentText : List Char
  isError : Bool
  requiresConfirmation : Bool
  dangerousCommand : Option (List Char)
deriving DecidableEq, Repr

/-- The f-string warning returned for a dangerous command awaiting
confirmation (braces of the JSON example written by code point). -/
def warning_msg (command danger_type : List Char) : List Char :=
  ("⚠️ **危险命令警告**\n\n检测到危险操作：`").data ++ command
  ++ ("`\n\n**命令类型**: ").data ++ danger_type
  ++ ("\n**风险说明**: 此操作可能导致数据丢失或系统损坏\n\n**如需执行此命令，请确认后使用 `force_execute=true` 参数重新提交。**\n\n示例：\n```json\n\x7b\n  \"command\": \"").data
  ++ command
  ++ ("\",\n  \"force_execute\": true\n\x7d\n```").data

/-- The arguments of an `execute_command` tool call, with the `args.get`
defaults already applied; `command := none` models an absent required
`command` key (`args["command"]` then raises `KeyError`). -/
structure ExecArgs where
  command : Option (List Char)
  host : Option (List Char) := none
  username : Option (List Char) := none
  password : Option (List Char) := none
  key_file : Option (List Char) := none
  port : Int := 22
  session : List Char := ("default").data
  env : List (List Char × List Char) := []
  cwd : Option (List Char) := none
  force_execute : Bool := false
deriving DecidableEq, Repr

/-- A record of an executor actually being invoked (used to state that a
command was, or was not, executed). -/
inductive ExecEvent
  | localExec (cmd : List Char) (env : List (List Char × List Char)) (cwd : Option (List Char))
  | remoteExec (client : Nat) (cmd : List Char) (env : List (List Char × List Char))
deriving DecidableEq, Repr

/-- The external effects of the execute-command flow, abstracted: the local
subprocess backend with its wall-clock readings, the SSH exec backend per
connection with its readings, the SSH transport liveness probe, and
`SSHExecutor.create_ssh_client` (which raises a description on failure). -/
structure ExecOracles where
  localBackend : List Char → List (List Char × List Char) → Option (List Char) →
    BackendOutcome (List Char × List Char × Option Int)
  locT0 : Int
  locT1 : Int
  sshBackend : Nat → List Char → BackendOutcome (List Char × List Char × Int)
  sshT0 : Int
  sshT1 : Int
  sshAlive : Nat → Bool
  createClient : List Char → List Char → Option (List Char) → Option (List Char) → Int →
    Except (List Char) Nat

/-- Python `dict[k] = v` on an association list (update in place, else append). -/
def dictSet (m : List (List Char × List Char)) (k v : List Char) :
    List (List Char × List Char) :=
  if m.any (fun e => e.1 == k) then m.map (fun e => if e.1 == k then (k, v) else e)
  else m ++ [(k, v)]

/-- Python `base.update(upd)` on an association list (later keys win,
insertion order preserved). -/
def dictUpdate (base upd : List (List Char × List Char)) : List (List Char × List Char) :=
  upd.foldl (fun acc kv => dictSet acc kv.1 kv.2) base

/-- Write back a mutated session record into the store (models in-place
mutation of the dict returned by `get_session`). -/
def setSession (st : SessionState) (sid : List Char) (s : Session) : SessionState :=
  { st with sessions := st.sessions.map (fun e => if e.1 == sid then (e.1, s) else e) }

/-- `TerminalMCPServer._execute_local_command`: merge the session's
accumulated env with the per-call env (per-call wins), run the local
executor, and persist the merged map back into the session. -/
def TerminalMCPServer.execute_local_command (o : ExecOracles) (st : SessionState)
    (sid : List Char) (sess : Session) (command : List Char)
    (env : List (List Char × List Char)) (cwd : Option (List Char)) :
    ExecuteResult × SessionState × List ExecEvent :=
  let merged := dictUpdate sess.local_env env
  let result := LocalExecutor.execute_command o.localBackend o.locT0 o.locT1 command merged cwd
  (result, setSession st sid { sess with local_env := merged },
    [ExecEvent.localExec command merged cwd])

/-- `TerminalMCPServer._execute_remote_command`: reuse the session's ssh
client while its transport is alive, otherwise create a new one (storing it
in the session); a creation failure is caught and encoded as
`{stdout:"", stderr:"远程命令执行失败: <desc>", exit_code:1, time:0}`. -/
def TerminalMCPServer.execute_remote_command (o : ExecOracles) (st : SessionState)
    (sid : List Char) (sess : Session) (command : List Char)
    (host username : List Char) (password key_file : Option (List Char)) (port : Int)
    (env : List (List Char × List Char)) :
    ExecuteResult × SessionState × List ExecEvent :=
  let clientRes : Except (List Char) (Nat × Bool) :=
    match sess.ssh_client with
    | some c =>
      if o.sshAlive c then .ok (c, false)
      else (o.createClient host username key_file password port).map (fun n => (n, true))
    | none => (o.createClient host username key_file password port).map (fun n => (n, true))
  match clientRes with
  | .error e =>
    ({ stdout := [], stderr := ("远程命令执行失败: ").data ++ e, exit_code := 1,
       execution_time := 0 }, st, [])
  | .ok (c, isNew) =>
    let st' := if isNew then setSession st sid { sess with ssh_client := some c } else st
    (SSHExecutor.execute_command (o.sshBackend c) o.sshT0 o.sshT1 command env, st',
      [ExecEvent.remoteExec c command env])

/-- Integer rendering (the `:.2f` duration formatting of the source is not
modelled beyond the integer clock). -/
def intStr (i : Int) : List Char := (toString i).data

/-- The output formatting at the end of `_execute_command`: a stdout block
only if non-blank, a stderr block only if non-blank, always an exit-code
line and a duration line; `isError = exit_code != 0`. -/
def formatResult (r : ExecuteResult) : ToolResult :=
  let parts :=
    (if !(pyStrip r.stdout).isEmpty then [("标准输出:\n").data ++ r.stdout] else [])
    ++ (if !(pyStrip r.stderr).isEmpty then [("标准错误:\n").data ++ r.stderr] else [])
    ++ [("退出码: ").data ++ intStr r.exit_code]
    ++ [("执行时间: ").data ++ intStr r.execution_time ++ ("秒").data]
  { contentText := List.intercalate ("\n\n").data parts,
    isError := r.exit_code != 0,
    requiresConfirmation := false, dangerousCommand := none }

/-- `TerminalMCPServer._execute_command`: the dangerous-command confirmation
check (unless forced), then the blacklist/whitelist evaluation (unless
forced), then session resolution and local or remote execution.  The third
component records the executor invocations. -/
def TerminalMCPServer.execute_command (f : CommandFilter) (o : ExecOracles)
    (st : SessionState) (now : Int) (a : ExecArgs) :
    ToolResult × SessionState × List ExecEvent :=
  match a.command with
  | none =>
    ({ contentText := ("命令执行失败: ").data ++ [squote] ++ ("command").data ++ [squote],
       isError := true, requiresConfirmation := false, dangerousCommand := none }, st, [])
  | some command =>
    if !a.force_execute && (check_dangerous_command command).1 then
      ({ contentText := warning_msg command (check_dangerous_command command).2,
         isError := false, requiresConfirmation := true, dangerousCommand := some command },
        st, [])
    else if !a.force_execute && !(f.is_allowed command).1 then
      ({ contentText := ("命令被拒绝执行: ").data ++ (f.is_allowed command).2.1,
         isError := true, requiresConfirmation := false, dangerousCommand := none }, st, [])
    else
      let gs := SessionManager.get_session st now a.session a.host a.username
      match a.host with
      | some h =>
        match a.username with
        | none =>
          ({ contentText := ("远程执行需要提供username参数").data, isError := true,
             requiresConfirmation := false, dangerousCommand := none }, gs.2.1, [])
        | some u =>
          let r := TerminalMCPServer.execute_remote_command o gs.2.1 a.session gs.1 command
            h u a.password a.key_file a.port a.env
          (formatResult r.1, r.2.1, r.2.2)
      | none =>
        let r := TerminalMCPServer.execute_local_command o gs.2.1 a.session gs.1 command
          a.env a.cwd
        (formatResult r.1, r.2.1, r.2.2)

/-- A JSON-RPC request id (number or string). -/
inductive RpcId
  | num (n : Int)
  | str (s : List Char)
deriving DecidableEq, Repr

/-- `params` of a request, destructured for the methods that read it. -/
structure Params where
  name : Option (List Char) := none
  arguments : ExecArgs := { command := none }
deriving DecidableEq, Repr

/-- A decoded JSON-RPC request object.  `id := none` models an absent `id`
field (`request.get("id")` also returns `None` for an explicit `null`). -/
structure Request where
  method : Option (List Char)
  id : Option RpcId := none
  params : Params := {}
deriving DecidableEq, Repr

/-- The result payloads the dispatcher can produce (static payloads are
represented by their constructor). -/
inductive ResPayload
  | initRes
  | toolsListRes
  | pongRes (timestamp : Int)
  | toolRes (r : ToolResult)
  | toolsCatalogRes
deriving DecidableEq, Repr

/-- A response body: a result or an error `{code, message}`. -/
inductive RBody
  | ok (p : ResPayload)
  | err (code : Int) (message : List Char)
deriving DecidableEq, Repr

/-- A response object; `id := none` models the `id` key being absent. -/
structure Response where
  id : Option RpcId
  body : RBody
deriving DecidableEq, Repr

/-- `TerminalMCPServer._handle_call_tool`: route by tool name
(`execute_command` with alias `execute`, and `get_tools`); an unknown or
missing name yields error `-32602`. -/
def TerminalMCPServer.handle_call_tool (f : CommandFilter) (o : ExecOracles)
    (st : SessionState) (now : Int) (p : Params) :
    RBody × SessionState × List ExecEvent :=
  match p.name with
  | some n =>
    if n = ("execute_command").data ∨ n = ("execute").data then
      let r := TerminalMCPServer.execute_command f o st now p.arguments
      (.ok (.toolRes r.1), r.2.1, r.2.2)
    else if n = ("get_tools").data then (.ok .toolsCatalogRes, st, [])
    else (.err (-32602) (("Unknown tool: ").data ++ n), st, [])
  | none => (.err (-32602) (("Unknown tool: None").data), st, [])

/-- `TerminalMCPServer.handle_request`: dispatch on `method`; only `ping`
checks for a missing id (returning `None` for a ping notification); every
other branch builds a response and attaches the request id when present. -/
def TerminalMCPServer.handle_request (f : CommandFilter) (o : ExecOracles)
    (st : SessionState) (now : Int) (req : Request) :
    Option Response × SessionState × List ExecEvent :=
  match req.method with
  | some m =>
    if m = ("initialize").data then (some { id := req.id, body := .ok .initRes }, st, [])
    else if m = ("tools/list").data then
      (some { id := req.id, body := .ok .toolsListRes }, st, [])
    else if m = ("tools/call").data then
      let r := TerminalMCPServer.handle_call_tool f o st now req.params
      (some { id := req.id, body := r.1 }, r.2.1, r.2.2)
    else if m = ("ping").data then
      match req.id with
      | some i => (some { id := some i, body := .ok (.pongRes now) }, st, [])
      | none => (none, st, [])
    else
      (some { id := req.id, body := .err (-32601) (("Method not found: ").data ++ m) }, st, [])
  | none =>
    (some { id := req.id, body := .err (-32601) (("Method not found: None").data) }, st, [])

/-- The per-request output of `StdioTransport.start`'s loop for a decoded
request: the dispatcher's response is serialized and printed as one stdout
line iff it is not `None` (`if response: print(...)`). -/
def StdioTransport.outputLine (f : CommandFilter) (o : ExecOracles) (st : SessionState)
    (now : Int) (req : Request) : Option Response :=
  (TerminalMCPServer.handle_request f o st now req).1

/-- `SSETransport._handle_mcp_message` on a shape-valid request object (the
parse / `jsonrpc` / `method` validations and their 400 responses happen
before dispatch): a `None` dispatcher result yields HTTP 204 with no body,
any other result is returned as the HTTP 200 body (and broadcast, modelled
separately). -/
def SSETransport.handle_mcp_message (f : CommandFilter) (o : ExecOracles)
    (st : SessionState) (now : Int) (req : Request) :
    (Int × Option Response) × SessionState × List ExecEvent :=
  let r := TerminalMCPServer.handle_request f o st now req
  match r.1 with
  | none => ((204, none), r.2.1, r.2.2)
  | some resp => ((200, some resp), r.2.1, r.2.2)

/-! ## SSE broadcast -/

/-- Outcome of one `_send_sse_message` attempt on a channel, by exception
class: `connErr` models `ConnectionError` / `OSError` / `RuntimeError`,
`otherExn` any other exception with its `str(e)`. -/
inductive WriteRes
  | ok
  | connErr (msg : List Char)
  | otherExn (msg : List Char)
deriving DecidableEq, Repr

/-- The generic-exception branch of `_broadcast_message` marks a channel
dead only when the lowercased message contains `closing`, `closed` or
`write`. -/
def otherExnRemovable (msg : List Char) : Bool :=
  hasSub ("closing").data (lowerStr msg) || hasSub ("closed").data (lowerStr msg)
    || hasSub ("write").data (lowerStr msg)

/-- `SSETransport._broadcast_message` over the snapshot of the channel set:
channels failing the liveness probe are marked dead without a write; a
successful write delivers; a connection-class failure marks dead; another
failure marks dead only per `otherExnRemovable`.  After the pass the dead
channels are removed.  Returns `(delivered channel ids, surviving channel ids)`. -/
def broadcastStep (alive : List Char → Bool) (write : List Char → WriteRes)
    (acc : List (List Char) × List (List Char)) (sid : List Char) :
    List (List Char) × List (List Char) :=
  if !(alive sid) then (acc.1, acc.2 ++ [sid])
  else match write sid with
    | .ok => (acc.1 ++ [sid], acc.2)
    | .connErr _ => (acc.1, acc.2 ++ [sid])
    | .otherExn msg =>
      if otherExnRemovable msg then (acc.1, acc.2 ++ [sid]) else (acc.1, acc.2)

def SSETransport.broadcast_message (streams : List (List Char))
    (alive : List Char → Bool) (write : List Char → WriteRes) :
    List (List Char) × List (List Char) :=
  let r := streams.foldl (broadcastStep alive write) ([], [])
  (r.1, streams.filter (fun sid => !(r.2.contains sid)))

/-! ## Shared list lemmas -/

theorem dropWhile_dropWhile (p : Char → Bool) (l : List Char) :
    (l.dropWhile p).dropWhile p = l.dropWhile p := by
  induction l with
  | nil => rfl
  | cons a t ih =>
    by_cases h : p a = true
    · simp [List.dropWhile_cons, h, ih]
    · simp [List.dropWhile_cons, h]

theorem pyStrip_dropWhile (l : List Char) :
    (pyStrip l).dropWhile pyIsSpace = pyStrip l := by
  unfold pyStrip
  exact dropWhile_dropWhile pyIsSpace (dropTrailWs l)

theorem extract_dropWhile (c : List Char) :
    (extract_main_command c).dropWhile pyIsSpace = extract_main_command c := by
  simp only [extract_main_command]
  exact pyStrip_dropWhile _

theorem hasSub_nil_pat (l : List Char) : hasSub [] l = true := by
  cases l with
  | nil => rfl
  | cons a t => simp [hasSub, List.isPrefixOf]

theorem hasSub_append_right (pat a b : List Char) (h : hasSub pat b = true) :
    hasSub pat (a ++ b) = true := by
  induction a with
  | nil => simpa using h
  | cons x xs ih =>
    simp only [List.cons_append, hasSub, Bool.or_eq_true]
    exact Or.inr ih

theorem isPrefixOf_append_right (p a b : List Char) (h : p.isPrefixOf a = true) :
    p.isPrefixOf (a ++ b) = true := by
  rw [List.isPrefixOf_iff_prefix] at h ⊢
  exact h.trans (List.prefix_append a b)

theorem hasSub_append_left (pat a b : List Char) (h : hasSub pat a = true) :
    hasSub pat (a ++ b) = true := by
  induction a with
  | nil =>
    simp only [hasSub] at h
    have : pat = [] := by simpa using h
    subst this
    exact hasSub_nil_pat _
  | cons x xs ih =>
    simp only [hasSub, Bool.or_eq_true] at h
    rcases h with h | h
    · simp only [List.cons_append, hasSub, Bool.or_eq_true]
      exact Or.inl (isPrefixOf_append_right _ _ _ h)
    · simp only [List.cons_append, hasSub, Bool.or_eq_true]
      exact Or.inr (ih h)

/-! ## Claim C3 -/

/-- A compile function under which every pattern fails to compile
(modelling `re.error` on each). -/
def badCompile : List Char → Option Matcher := fun _ => none

/-- Claim C3 is false on the code: with the single (invalid) allow pattern
`(` and an empty deny list, every configured allow pattern fails to compile,
yet `whitelist_enabled` is `true` (it is derived from the configured
patterns, not the compiled rules), the compiled allow-rule list is empty,
and the command `ls` — which matches no deny rule — is denied rather than
allowed by default. -/
theorem C3_counterexample :
    (CommandFilter.init [("(").data] [] badCompile).whitelist_enabled = true
    ∧ (CommandFilter.init [("(").data] [] badCompile).whitelist_rules = []
    ∧ ((CommandFilter.init [("(").data] [] badCompile).is_allowed ("ls").data).1 = false
    ∧ ((CommandFilter.init [("(").data] [] badCompile).is_allowed ("ls").data).2.1
        = ("命令不在白名单中").data :=
  ⟨rfl, rfl, rfl, rfl⟩

/-- Claim C3 amended: `whitelist_enabled` is derived from the configured
allow pattern list (true iff it is non-empty), not from the compiled rules;
in particular when every configured allow pattern fails to compile the
allow-list stays active with zero rules, so a command matching no deny rule
is denied (reason "not in allow-list") instead of allowed by default. -/
theorem C3_enabled_from_patterns (wl bl : List (List Char))
    (compile : List Char → Option Matcher) :
    (CommandFilter.init wl bl compile).whitelist_enabled = !wl.isEmpty
    ∧ (∀ command : List Char, wl ≠ [] →
        (CommandFilter.init wl bl compile).whitelist_rules = [] →
        blacklistLoop (extract_main_command command)
          (CommandFilter.init wl bl compile).blacklist_rules = none →
        ((CommandFilter.init wl bl compile).is_allowed command).1 = false
        ∧ ((CommandFilter.init wl bl compile).is_allowed command).2.1
            = ("命令不在白名单中").data) := by
  constructor
  · rfl
  · intro command hwl hrules hbl
    have henabled : (CommandFilter.init wl bl compile).whitelist_enabled = true := by
      simp [CommandFilter.init, List.isEmpty_iff, hwl]
    simp only [CommandFilter.is_allowed]
    rw [hbl, henabled, hrules]
    simp [whitelistLoop]

/-- Witness for `C3_enabled_from_patterns` at the configuration of
`C3_counterexample`. -/
theorem C3_enabled_from_patterns_witness :
    (CommandFilter.init [("(").data] [] badCompile).whitelist_enabled
        = !([("(").data].isEmpty : Bool)
    ∧ ((CommandFilter.init [("(").data] [] badCompile).is_allowed ("ls").data).1 = false :=
  ⟨(C3_enabled_from_patterns [("(").data] [] badCompile).1,
    ((C3_enabled_from_patterns [("(").data] [] badCompile).2 ("ls").data
      (by decide) rfl rfl).1⟩

/-! ## Claim C4 -/

/-- "Begins with `rm` followed by whitespace" of the claim. -/
def rmBegins (l : List Char) : Bool :=
  match l with
  | a :: b :: c :: _ => a = 'r' && b = 'm' && pyIsSpace c
  | _ => false

/-- The claim's characterization read literally: the five help markers are
tested as substrings of the normalized text itself (case-sensitively). -/
def dangerSpecClaim (c : List Char) : Bool :=
  rmBegins (extract_main_command c)
  && !(helpPatterns.any (fun hp => hasSub hp (extract_main_command c)))

/-- The characterization as the code implements it: the help markers are
tested against the lowercased normalized text. -/
def dangerSpecLowered (c : List Char) : Bool :=
  rmBegins (extract_main_command c)
  && !(helpPatterns.any (fun hp => hasSub hp (lowerStr (extract_main_command c))))

theorem rmMatch_eq_rmBegins (l : List Char) (h : l.dropWhile pyIsSpace = l) :
    rmMatch l = rmBegins l := by
  unfold rmMatch rmBegins
  rw [h]

/-- Claim C4 is false as stated: on `rm -H /tmp/x` the claim's
characterization (normalized text begins with `rm` + whitespace, and none of
the five markers appear in it) yields `(true, "deletion command")`, but the
code tests the markers against the lowercased text, finds `-h` inside `-H`,
and returns `(false, "")`. -/
theorem C4_counterexample :
    dangerSpecClaim ("rm -H /tmp/x").data = true
    ∧ check_dangerous_command ("rm -H /tmp/x").data = (false, []) :=
  ⟨by decide, by decide⟩

/-- Claim C4 amended: `check_dangerous_command` normalizes the command and
returns `(true, "删除命令")` (the category rendered "deletion command" by
the spec) iff the normalized text begins with `rm` followed by whitespace
and none of `--help`, `--version`, `-h`, `-v`, `--usage` appear in its
lowercased form — the marker test is case-insensitive; otherwise it returns
`(false, "")`.  In particular `rm -rf /tmp/x` requires confirmation and
`rm --help` does not. -/
theorem C4_check_dangerous_characterization (command : List Char) :
    check_dangerous_command command =
      (if dangerSpecLowered command then (true, ("删除命令").data) else (false, []))
    ∧ check_dangerous_command ("rm -rf /tmp/x").data = (true, ("删除命令").data)
    ∧ check_dangerous_command ("rm --help").data = (false, []) := by
  refine ⟨?_, by decide, by decide⟩
  have h := rmMatch_eq_rmBegins (extract_main_command command) (extract_dropWhile command)
  simp only [check_dangerous_command, dangerSpecLowered]
  rw [h]
  by_cases hrm : rmBegins (extract_main_command command) = true
  · by_cases hhp : (helpPatterns.any
        (fun hp => hasSub hp (lowerStr (extract_main_command command)))) = true
    · simp [hrm, hhp]
    · simp [hrm, Bool.eq_false_iff.mpr hhp]
  · simp [Bool.eq_false_iff.mpr hrm]

/-! ## Claims C5 and C6 -/

/-- A concrete set of external-effect oracles for witnesses. -/
def trivialOracles : ExecOracles :=
  { localBackend := fun _ _ _ => .ok ([], [], some 0), locT0 := 0, locT1 := 0,
    sshBackend := fun _ _ => .ok ([], [], 0), sshT0 := 0, sshT1 := 0,
    sshAlive := fun _ => false, createClient := fun _ _ _ _ _ => .error [] }

theorem warning_contains_force (command cat : List Char) :
    hasSub ("force_execute=true").data (warning_msg command cat) = true := by
  unfold warning_msg
  apply hasSub_append_left
  apply hasSub_append_left
  apply hasSub_append_right
  decide

theorem warning_contains_danger (command cat : List Char) :
    hasSub ("危险命令警告").data (warning_msg command cat) = true := by
  unfold warning_msg
  apply hasSub_append_left
  apply hasSub_append_left
  apply hasSub_append_left
  apply hasSub_append_left
  apply hasSub_append_left
  apply hasSub_append_left
  decide

/-- Claim C5: without `force_execute`, a command classified dangerous makes
`_execute_command` return immediately a non-error result
(`isError = false`, `requires_confirmation` set) whose text contains the
danger warning and the instruction to resubmit with `force_execute=true`;
the result does not depend on the filter's rules (the dangerous-command
check runs before allow/deny evaluation, whose outcome never enters this
branch), the session store is untouched and no executor is invoked. -/
theorem C5_dangerous_requires_confirmation (f : CommandFilter) (o : ExecOracles)
    (st : SessionState) (now : Int) (a : ExecArgs) (command : List Char)
    (hcmd : a.command = some command) (hforce : a.force_execute = false)
    (hdang : (check_dangerous_command command).1 = true) :
    TerminalMCPServer.execute_command f o st now a =
      ({ contentText := warning_msg command (check_dangerous_command command).2,
         isError := false, requiresConfirmation := true, dangerousCommand := some command },
        st, ([] : List ExecEvent))
    ∧ hasSub ("force_execute=true").data
        (TerminalMCPServer.execute_command f o st now a).1.contentText = true
    ∧ hasSub ("危险命令警告").data
        (TerminalMCPServer.execute_command f o st now a).1.contentText = true := by
  have heq : TerminalMCPServer.execute_command f o st now a =
      ({ contentText := warning_msg command (check_dangerous_command command).2,
         isError := false, requiresConfirmation := true, dangerousCommand := some command },
        st, ([] : List ExecEvent)) := by
    simp only [TerminalMCPServer.execute_command, hcmd, hforce, hdang]
    simp
  refine ⟨heq, ?_, ?_⟩
  · rw [heq]
    exact warning_contains_force _ _
  · rw [heq]
    exact warning_contains_danger _ _

/-- Witness for `C5_dangerous_requires_confirmation` on `rm -rf /`. -/
theorem C5_dangerous_requires_confirmation_witness :
    hasSub ("force_execute=true").data
      (TerminalMCPServer.execute_command (CommandFilter.init [] [] badCompile) trivialOracles
        { sessions := [], session_timeout := 1200 } 0
        { command := some ("rm -rf /").data }).1.contentText = true :=
  (C5_dangerous_requires_confirmation (CommandFilter.init [] [] badCompile) trivialOracles
    { sessions := [], session_timeout := 1200 } 0
    { command := some ("rm -rf /").data } ("rm -rf /").data
    rfl rfl (by decide)).2.1

/-- Claim C6: with `force_execute=true` both the dangerous-command
confirmation check and the blacklist/whitelist evaluation are skipped
entirely — the result, store and executor invocations do not depend on the
filter at all — and a local call proceeds to the executor (the command is
executed) even when it matches a deny rule or would require confirmation. -/
theorem C6_force_skips_checks (f f2 : CommandFilter) (o : ExecOracles) (st : SessionState)
    (now : Int) (a : ExecArgs) (hforce : a.force_execute = true) :
    TerminalMCPServer.execute_command f o st now a
      = TerminalMCPServer.execute_command f2 o st now a
    ∧ (∀ command, a.command = some command → a.host = none →
        (TerminalMCPServer.execute_command f o st now a).2.2 =
          [ExecEvent.localExec command
            (dictUpdate (SessionManager.get_session st now a.session a.host a.username).1.local_env
              a.env) a.cwd]) := by
  constructor
  · cases hcmd : a.command with
    | none => simp [TerminalMCPServer.execute_command, hcmd]
    | some cmd => simp [TerminalMCPServer.execute_command, hcmd, hforce]
  · intro command hcmd hhost
    simp [TerminalMCPServer.execute_command, hcmd, hforce, hhost,
      TerminalMCPServer.execute_local_command]

/-- A filter whose deny list rejects every `rm`-prefixed command (the
matcher models the compiled regex `^rm`). -/
def denyRmFilter : CommandFilter :=
  CommandFilter.init [] [("^rm").data]
    (fun _ => some { matchStart := fun l => ("rm").data.isPrefixOf l,
                     search := fun l => hasSub ("rm").data l })

/-- Witness for `C6_force_skips_checks`: `rm -rf /` matches the deny rule
and is classified dangerous, yet with `force_execute=true` the local
executor is invoked. -/
theorem C6_force_skips_checks_witness :
    (denyRmFilter.is_allowed ("rm -rf /").data).1 = false
    ∧ (check_dangerous_command ("rm -rf /").data).1 = true
    ∧ (TerminalMCPServer.execute_command denyRmFilter trivialOracles
        { sessions := [], session_timeout := 1200 } 0
        { command := some ("rm -rf /").data, force_execute := true }).2.2 =
      [ExecEvent.localExec ("rm -rf /").data [] none] := by
  refine ⟨by decide, by decide, ?_⟩
  have h := (C6_force_skips_checks denyRmFilter denyRmFilter trivialOracles
    { sessions := [], session_timeout := 1200 } 0
    { command := some ("rm -rf /").data, force_execute := true } rfl).2
    ("rm -rf /").data rfl rfl
  rw [h]
  decide

/-! ## Claim C7 -/

/-- Claim C7: the executors are total (no exception escapes; the Lean
functions return a well-formed `ExecuteResult` on every input): a backend
exception is converted to `{stdout: "", stderr: <prefixed description>,
exit_code: 1}`, a local exit code of `None` defaults to `0`, and the
elapsed wall time is measured around the call in both the success and the
failure branch. -/
theorem C7_executors_wellformed
    (lb : List Char → List (List Char × List Char) → Option (List Char) →
      BackendOutcome (List Char × List Char × Option Int))
    (sb : List Char → BackendOutcome (List Char × List Char × Int))
    (t0 t1 : Int) (command : List Char) (env : List (List Char × List Char))
    (cwd : Option (List Char)) (d : List Char) :
    (lb command env cwd = .exn d →
      LocalExecutor.execute_command lb t0 t1 command env cwd =
        { stdout := [], stderr := ("本地命令执行失败: ").data ++ d, exit_code := 1,
          execution_time := t1 - t0 })
    ∧ (∀ out err, lb command env cwd = .ok (out, err, none) →
        LocalExecutor.execute_command lb t0 t1 command env cwd =
          { stdout := out, stderr := err, exit_code := 0, execution_time := t1 - t0 })
    ∧ (LocalExecutor.execute_command lb t0 t1 command env cwd).execution_time = t1 - t0
    ∧ (sb (sshExportString env ++ command) = .exn d →
        SSHExecutor.execute_command sb t0 t1 command env =
          { stdout := [], stderr := ("SSH命令执行失败: ").data ++ d, exit_code := 1,
            execution_time := t1 - t0 })
    ∧ (SSHExecutor.execute_command sb t0 t1 command env).execution_time = t1 - t0 := by
  refine ⟨?_, ?_, ?_, ?_, ?_⟩
  · intro h
    simp [LocalExecutor.execute_command, h]
  · intro out err h
    simp [LocalExecutor.execute_command, h]
  · cases h : lb command env cwd with
    | ok v =>
      obtain ⟨o1, o2, o3⟩ := v
      simp [LocalExecutor.execute_command, h]
    | exn e =>
      simp [LocalExecutor.execute_command, h]
  · intro h
    simp [SSHExecutor.execute_command, h]
  · cases h : sb (sshExportString env ++ command) with
    | ok v =>
      obtain ⟨o1, o2, o3⟩ := v
      simp [SSHExecutor.execute_command, h]
    | exn e =>
      simp [SSHExecutor.execute_command, h]

/-- A local backend whose spawn raises (description `boom`). -/
def lbBoom : List Char → List (List Char × List Char) → Option (List Char) →
    BackendOutcome (List Char × List Char × Option Int) := fun _ _ _ => .exn ("boom").data

/-- An SSH backend whose call raises (description `boom`). -/
def sbBoom : List Char → BackendOutcome (List Char × List Char × Int) :=
  fun _ => .exn ("boom").data

/-- Witness for `C7_executors_wellformed` on concrete failing backends. -/
theorem C7_executors_wellformed_witness :
    LocalExecutor.execute_command lbBoom 0 5 ("echo hi").data [] none =
      { stdout := [], stderr := ("本地命令执行失败: boom").data, exit_code := 1,
        execution_time := 5 }
    ∧ SSHExecutor.execute_command sbBoom 0 7 ("echo hi").data [] =
      { stdout := [], stderr := ("SSH命令执行失败: boom").data, exit_code := 1,
        execution_time := 7 } := by
  constructor
  · rw [(C7_executors_wellformed lbBoom sbBoom 0 5 (("echo hi").data) [] none
      (("boom").data)).1 rfl]
    decide
  · rw [(C7_executors_wellformed lbBoom sbBoom 0 7 (("echo hi").data) [] none
      (("boom").data)).2.2.2.1 rfl]
    decide

/-! ## Claim C2 -/

/-- An empty-config filter (no deny rules, allow-list inactive). -/
def emptyFilter : CommandFilter := CommandFilter.init [] [] badCompile

/-- An empty session store with the default timeout. -/
def emptyStore : SessionState := { sessions := [], session_timeout := 1200 }

theorem handle_request_none_iff (f : CommandFilter) (o : ExecOracles) (st : SessionState)
    (now : Int) (req : Request) :
    ((TerminalMCPServer.handle_request f o st now req).1 = none ↔
      (req.method = some (("ping").data) ∧ req.id = none)) := by
  obtain ⟨method, rid, params⟩ := req
  cases method with
  | none => simp [TerminalMCPServer.handle_request]
  | some m =>
    simp only [TerminalMCPServer.handle_request]
    by_cases h1 : m = ("initialize").data
    · subst h1
      rw [if_pos rfl]
      constructor
      · intro h
        simp at h
      · rintro ⟨hm, -⟩
        exact absurd (Option.some.inj hm) (by decide)
    · rw [if_neg h1]
      by_cases h2 : m = ("tools/list").data
      · subst h2
        rw [if_pos rfl]
        constructor
        · intro h
          simp at h
        · rintro ⟨hm, -⟩
          exact absurd (Option.some.inj hm) (by decide)
      · rw [if_neg h2]
        by_cases h3 : m = ("tools/call").data
        · subst h3
          rw [if_pos rfl]
          constructor
          · intro h
            simp at h
          · rintro ⟨hm, -⟩
            exact absurd (Option.some.inj hm) (by decide)
        · rw [if_neg h3]
          by_cases h4 : m = ("ping").data
          · subst h4
            rw [if_pos rfl]
            cases rid with
            | none => simp
            | some i =>
              constructor
              · intro h
                simp at h
              · rintro ⟨-, hid⟩
                simp at hid
          · rw [if_neg h4]
            constructor
            · intro h
              simp at h
            · rintro ⟨hm, -⟩
              exact absurd (Option.some.inj hm) h4

/-- Claim C2 is false as stated: the request `{method: "initialize"}` with no
`id` field produces a response value, a stdio output line, and an HTTP 200
reply with a body (not 204) — only `ping` is treated as a notification. -/
theorem C2_counterexample :
    (TerminalMCPServer.handle_request emptyFilter trivialOracles emptyStore 0
        { method := some ("initialize").data }).1
      = some { id := none, body := .ok .initRes }
    ∧ (StdioTransport.outputLine emptyFilter trivialOracles emptyStore 0
        { method := some ("initialize").data }).isSome = true
    ∧ (SSETransport.handle_mcp_message emptyFilter trivialOracles emptyStore 0
        { method := some ("initialize").data }).1
      = (200, some { id := none, body := .ok .initRes }) :=
  ⟨rfl, rfl, rfl⟩

/-- Claim C2 amended: a request with no `id` produces no response value (and
hence no stdout line, and HTTP 204 with no body) iff its method is `ping`;
any other method without an id still yields a response, emitted as a stdout
line on the stdio transport and as an HTTP 200 body on the streaming POST
path (with the response's `id` field absent).  `ping` with an id returns the
`{status:"pong", timestamp}` result. -/
theorem C2_notifications (f : CommandFilter) (o : ExecOracles) (st : SessionState)
    (now : Int) (req : Request) :
    (req.id = none →
      ((TerminalMCPServer.handle_request f o st now req).1 = none
        ↔ req.method = some (("ping").data)))
    ∧ (∀ i, req.method = some (("ping").data) → req.id = some i →
        (TerminalMCPServer.handle_request f o st now req).1
          = some { id := some i, body := .ok (.pongRes now) })
    ∧ ((TerminalMCPServer.handle_request f o st now req).1 = none →
        (SSETransport.handle_mcp_message f o st now req).1 = (204, none))
    ∧ (∀ r, (TerminalMCPServer.handle_request f o st now req).1 = some r →
        (SSETransport.handle_mcp_message f o st now req).1 = (200, some r)
        ∧ StdioTransport.outputLine f o st now req = some r) := by
  refine ⟨?_, ?_, ?_, ?_⟩
  · intro hid
    rw [handle_request_none_iff]
    simp [hid]
  · intro i hm hid
    obtain ⟨method, rid, params⟩ := req
    simp only at hm hid
    subst hm
    subst hid
    rfl
  · intro h
    simp [SSETransport.handle_mcp_message, h]
  · intro r h
    constructor
    · simp [SSETransport.handle_mcp_message, h]
    · simp [StdioTransport.outputLine, h]

/-- Witness for `C2_notifications`: a `ping` without id is suppressed, a
`ping` with id 7 gets the pong result. -/
theorem C2_notifications_witness :
    (TerminalMCPServer.handle_request emptyFilter trivialOracles emptyStore 0
        { method := some ("ping").data }).1 = none
    ∧ (TerminalMCPServer.handle_request emptyFilter trivialOracles emptyStore 0
        { method := some ("ping").data, id := some (RpcId.num 7) }).1
      = some { id := some (RpcId.num 7), body := .ok (.pongRes 0) } :=
  ⟨((C2_notifications emptyFilter trivialOracles emptyStore 0
      { method := some ("ping").data }).1 rfl).mpr rfl,
    (C2_notifications emptyFilter trivialOracles emptyStore 0
      { method := some ("ping").data, id := some (RpcId.num 7) }).2.1
      (RpcId.num 7) rfl rfl⟩

/-! ## Claim C9 -/

/-- A channel receives the broadcast iff it passes the liveness probe and
its write succeeds. -/
def deliveredPred (alive : List Char → Bool) (write : List Char → WriteRes)
    (sid : List Char) : Bool :=
  alive sid && decide (write sid = WriteRes.ok)

/-- A channel is marked dead by the pass iff it fails the liveness probe,
its write fails with a connection-class error, or its write fails with
another exception whose message mentions closing/closed/write. -/
def deadPred (alive : List Char → Bool) (write : List Char → WriteRes)
    (sid : List Char) : Bool :=
  !(alive sid) || (match write sid with
    | WriteRes.ok => false
    | WriteRes.connErr _ => true
    | WriteRes.otherExn msg => otherExnRemovable msg)

theorem contains_iff_mem (l : List (List Char)) (a : List Char) :
    l.contains a = true ↔ a ∈ l := by
  simp [List.contains, List.elem_iff]

theorem broadcast_foldl (alive : List Char → Bool) (write : List Char → WriteRes)
    (streams : List (List Char)) : ∀ d0 dd0 : List (List Char),
    streams.foldl (broadcastStep alive write) (d0, dd0)
      = (d0 ++ streams.filter (deliveredPred alive write),
         dd0 ++ streams.filter (deadPred alive write)) := by
  induction streams with
  | nil => intro d0 dd0; simp
  | cons sid rest ih =>
    intro d0 dd0
    simp only [List.foldl_cons]
    by_cases ha : alive sid = true
    · cases hw : write sid with
      | ok =>
        have h1 : broadcastStep alive write (d0, dd0) sid = (d0 ++ [sid], dd0) := by
          simp [broadcastStep, ha, hw]
        have hdp : deliveredPred alive write sid = true := by
          simp [deliveredPred, ha, hw]
        have hdd : deadPred alive write sid = false := by
          simp [deadPred, ha, hw]
        rw [h1, ih]
        simp [List.filter_cons, hdp, hdd, List.append_assoc]
      | connErr m =>
        have h1 : broadcastStep alive write (d0, dd0) sid = (d0, dd0 ++ [sid]) := by
          simp [broadcastStep, ha, hw]
        have hdp : deliveredPred alive write sid = false := by
          simp [deliveredPred, ha, hw]
        have hdd : deadPred alive write sid = true := by
          simp [deadPred, ha, hw]
        rw [h1, ih]
        simp [List.filter_cons, hdp, hdd, List.append_assoc]
      | otherExn m =>
        by_cases hrem : otherExnRemovable m = true
        · have h1 : broadcastStep alive write (d0, dd0) sid = (d0, dd0 ++ [sid]) := by
            simp [broadcastStep, ha, hw, hrem]
          have hdp : deliveredPred alive write sid = false := by
            simp [deliveredPred, ha, hw]
          have hdd : deadPred alive write sid = true := by
            simp [deadPred, ha, hw, hrem]
          rw [h1, ih]
          simp [List.filter_cons, hdp, hdd, List.append_assoc]
        · have h1 : broadcastStep alive write (d0, dd0) sid = (d0, dd0) := by
            simp [broadcastStep, ha, hw, hrem]
          have hdp : deliveredPred alive write sid = false := by
            simp [deliveredPred, ha, hw]
          have hdd : deadPred alive write sid = false := by
            simp [deadPred, ha, hw, Bool.eq_false_iff.mpr hrem]
          rw [h1, ih]
          simp [List.filter_cons, hdp, hdd]
    · have h1 : broadcastStep alive write (d0, dd0) sid = (d0, dd0 ++ [sid]) := by
        simp [broadcastStep, Bool.eq_false_iff.mpr ha]
      have hdp : deliveredPred alive write sid = false := by
        simp [deliveredPred, Bool.eq_false_iff.mpr ha]
      have hdd : deadPred alive write sid = true := by
        simp [deadPred, Bool.eq_false_iff.mpr ha]
      rw [h1, ih]
      simp [List.filter_cons, hdp, hdd, List.append_assoc]

theorem broadcast_spec (streams : List (List Char)) (alive : List Char → Bool)
    (write : List Char → WriteRes) :
    SSETransport.broadcast_message streams alive write
      = (streams.filter (deliveredPred alive write),
         streams.filter
           (fun sid => !((streams.filter (deadPred alive write)).contains sid))) := by
  unfold SSETransport.broadcast_message
  rw [broadcast_foldl]
  simp

/-- The three channels of the C9 counterexample. -/
def bcStreams : List (List Char) := [("a").data, ("b").data, ("c").data]

/-- A write oracle failing on channel `b` with a generic exception whose
message (`boom`) mentions none of closing/closed/write. -/
def bcWrite : List Char → WriteRes :=
  fun sid => if sid = ("b").data then WriteRes.otherExn ("boom").data else WriteRes.ok

/-- Claim C9 is false as stated: with three open channels and the write to
`b` failing (a generic exception with message `boom`), the broadcast still
delivers to the remaining two — but `b` is NOT absent from the channel set
afterwards: the generic-exception branch only removes a channel whose error
message mentions closing/closed/write. -/
theorem C9_counterexample :
    SSETransport.broadcast_message bcStreams (fun _ => true) bcWrite
      = ([("a").data, ("c").data], [("a").data, ("b").data, ("c").data])
    ∧ ("b").data ∈ (SSETransport.broadcast_message bcStreams (fun _ => true) bcWrite).2 :=
  ⟨by decide, by decide⟩

/-- Claim C9 amended: a failing write never blocks delivery to the other
channels — every open channel whose write succeeds receives the message,
whatever happens on the others, and remains in the channel set — while a
channel whose write failed is absent from the set afterwards iff the
failure was removable: a connection-class error (`ConnectionError`/
`OSError`/`RuntimeError`), or another exception whose message mentions
closing/closed/write; a write failing with any other exception leaves the
channel in the set.  (`alive sid = true` states that the channel passes the
liveness probe, so that its write is attempted at all.) -/
theorem C9_broadcast (streams : List (List Char)) (alive : List Char → Bool)
    (write : List Char → WriteRes) :
    (∀ sid ∈ streams, alive sid = true → write sid = WriteRes.ok →
      sid ∈ (SSETransport.broadcast_message streams alive write).1)
    ∧ (∀ sid ∈ streams, alive sid = true → write sid = WriteRes.ok →
        sid ∈ (SSETransport.broadcast_message streams alive write).2)
    ∧ (∀ sid ∈ streams, alive sid = true → ∀ m, write sid = WriteRes.connErr m →
        sid ∉ (SSETransport.broadcast_message streams alive write).2)
    ∧ (∀ sid ∈ streams, alive sid = true → ∀ m, write sid = WriteRes.otherExn m →
        otherExnRemovable m = true →
        sid ∉ (SSETransport.broadcast_message streams alive write).2)
    ∧ (∀ sid ∈ streams, alive sid = true → ∀ m, write sid = WriteRes.otherExn m →
        otherExnRemovable m = false →
        sid ∈ (SSETransport.broadcast_message streams alive write).2) := by
  rw [broadcast_spec]
  refine ⟨?_, ?_, ?_, ?_, ?_⟩
  · intro sid hmem ha hw
    refine List.mem_filter.mpr ⟨hmem, ?_⟩
    simp [deliveredPred, ha, hw]
  · intro sid hmem ha hw
    refine List.mem_filter.mpr ⟨hmem, ?_⟩
    have hnd : sid ∉ streams.filter (deadPred alive write) := by
      intro hmem2
      have h2 := (List.mem_filter.mp hmem2).2
      simp [deadPred, ha, hw] at h2
    have hc : (streams.filter (deadPred alive write)).contains sid = false :=
      Bool.eq_false_iff.mpr (fun h => hnd ((contains_iff_mem _ _).mp h))
    simp [hc]
    exact Or.inr (by simp [deadPred, ha, hw])
  · intro sid hmem ha m hw hmem2
    have h2 := (List.mem_filter.mp hmem2).2
    have hdead : sid ∈ streams.filter (deadPred alive write) :=
      List.mem_filter.mpr ⟨hmem, by simp [deadPred, ha, hw]⟩
    have hx := (contains_iff_mem _ _).mpr hdead
    simp [hx] at h2
    rcases h2 with h | h
    · exact h hmem
    · simp [deadPred, ha, hw] at h
  · intro sid hmem ha m hw hrem hmem2
    have h2 := (List.mem_filter.mp hmem2).2
    have hdead : sid ∈ streams.filter (deadPred alive write) :=
      List.mem_filter.mpr ⟨hmem, by simp [deadPred, ha, hw, hrem]⟩
    have hx := (contains_iff_mem _ _).mpr hdead
    simp [hx] at h2
    rcases h2 with h | h
    · exact h hmem
    · simp [deadPred, ha, hw, hrem] at h
  · intro sid hmem ha m hw hrem
    refine List.mem_filter.mpr ⟨hmem, ?_⟩
    have hnd : sid ∉ streams.filter (deadPred alive write) := by
      intro hmem2
      have h2 := (List.mem_filter.mp hmem2).2
      simp [deadPred, ha, hw, hrem] at h2
    have hc : (streams.filter (deadPred alive write)).contains sid = false :=
      Bool.eq_false_iff.mpr (fun h => hnd ((contains_iff_mem _ _).mp h))
    simp [hc]
    exact Or.inr (by simp [deadPred, ha, hw, hrem])

/-- Witness for `C9_broadcast` on the counterexample configuration: `c` is
delivered to, `a` (written successfully) remains in the set, and `b`
(failing non-removably) also stays in the set. -/
theorem C9_broadcast_witness :
    ("c").data ∈ (SSETransport.broadcast_message bcStreams (fun _ => true) bcWrite).1
    ∧ ("a").data ∈ (SSETransport.broadcast_message bcStreams (fun _ => true) bcWrite).2
    ∧ ("b").data ∈ (SSETransport.broadcast_message bcStreams (fun _ => true) bcWrite).2 :=
  ⟨(C9_broadcast bcStreams (fun _ => true) bcWrite).1 (("c").data) (by decide) rfl (by decide),
    (C9_broadcast bcStreams (fun _ => true) bcWrite).2.1 (("a").data) (by decide) rfl (by decide),
    (C9_broadcast bcStreams (fun _ => true) bcWrite).2.2.2.2 (("b").data) (by decide) rfl
      (("boom").data) (by decide) (by decide)⟩

/-! ## Claim C10 -/

theorem char_contains_iff (l : List Char) (a : Char) : l.contains a = true ↔ a ∈ l := by
  simp [List.contains, List.elem_iff]

theorem takeWhile_dropWhile_comm (p q : Char → Bool)
    (himp : ∀ x, q x = true → p x = true) (l : List Char) :
    (l.dropWhile q).takeWhile p = (l.takeWhile p).dropWhile q := by
  induction l with
  | nil => rfl
  | cons a t ih =>
    by_cases hq : q a = true
    · have hp := himp a hq
      simp [List.dropWhile_cons, List.takeWhile_cons, hq, hp, ih]
    · by_cases hp : p a = true
      · simp [List.dropWhile_cons, List.takeWhile_cons, hq, hp]
      · simp [List.dropWhile_cons, List.takeWhile_cons, hq, hp]

theorem dropTrailWs_decomp (l : List Char) :
    ∃ t, l = dropTrailWs l ++ t ∧ ∀ x ∈ t, pyIsSpace x = true := by
  induction l with
  | nil => exact ⟨[], by simp [dropTrailWs], by simp⟩
  | cons c cs ih =>
    obtain ⟨t, ht, hws⟩ := ih
    cases hdt : dropTrailWs cs with
    | nil =>
      rw [hdt] at ht
      simp only [List.nil_append] at ht
      by_cases hc : pyIsSpace c = true
      · refine ⟨c :: t, ?_, ?_⟩
        · simp [dropTrailWs, hdt, hc, ← ht]
        · intro x hx
          rcases List.mem_cons.mp hx with rfl | hx2
          · exact hc
          · exact hws _ hx2
      · refine ⟨t, ?_, hws⟩
        simp [dropTrailWs, hdt, hc, ← ht]
    | cons r rs =>
      refine ⟨t, ?_, hws⟩
      simp only [dropTrailWs, hdt]
      rw [List.cons_append, ← hdt, ← ht]

theorem dropTrailWs_cons (c : Char) (cs : List Char) :
    dropTrailWs (c :: cs) = match dropTrailWs cs with
      | [] => if pyIsSpace c then [] else [c]
      | r => c :: r := rfl

theorem dropTrailWs_idem (l : List Char) : dropTrailWs (dropTrailWs l) = dropTrailWs l := by
  induction l with
  | nil => rfl
  | cons c cs ih =>
    cases hdt : dropTrailWs cs with
    | nil =>
      by_cases hc : pyIsSpace c = true
      · simp [dropTrailWs, hdt, hc]
      · simp [dropTrailWs, hdt, hc]
    | cons r rs =>
      rw [hdt] at ih
      have h1 : dropTrailWs (c :: cs) = c :: r :: rs := by
        rw [dropTrailWs_cons, hdt]
      rw [h1, dropTrailWs_cons, ih]

theorem dropTrailWs_dropWhile_comm (l : List Char) :
    dropTrailWs (l.dropWhile pyIsSpace) = (dropTrailWs l).dropWhile pyIsSpace := by
  induction l with
  | nil => rfl
  | cons c cs ih =>
    by_cases hc : pyIsSpace c = true
    · rw [List.dropWhile_cons, if_pos hc, ih]
      cases hdt : dropTrailWs cs with
      | nil => simp [dropTrailWs, hdt, hc]
      | cons r rs => simp [dropTrailWs, hdt, List.dropWhile_cons, hc]
    · rw [List.dropWhile_cons, if_neg hc]
      cases hdt : dropTrailWs cs with
      | nil => simp [dropTrailWs, hdt, hc, List.dropWhile_cons]
      | cons r rs => simp [dropTrailWs, hdt, hc, List.dropWhile_cons]

theorem pyStrip_pyStrip (l : List Char) : pyStrip (pyStrip l) = pyStrip l := by
  unfold pyStrip
  rw [dropTrailWs_dropWhile_comm, dropTrailWs_idem, dropWhile_dropWhile]

theorem pyStrip_dropWhile_pyIsSpace (l : List Char) :
    pyStrip (l.dropWhile pyIsSpace) = pyStrip l := by
  unfold pyStrip
  rw [dropTrailWs_dropWhile_comm, dropWhile_dropWhile]

theorem mem_dropWhile_of_mem (p : Char → Bool) (x : Char) (l : List Char)
    (hx : x ∈ l) (hp : p x = false) : x ∈ l.dropWhile p := by
  induction l with
  | nil => cases hx
  | cons a t ih =>
    rw [List.dropWhile_cons]
    by_cases ha : p a = true
    · rw [if_pos ha]
      rcases List.mem_cons.mp hx with rfl | hx2
      · rw [ha] at hp; cases hp
      · exact ih hx2
    · rw [if_neg ha]
      exact hx

theorem mem_of_mem_dropWhile (p : Char → Bool) (x : Char) (l : List Char)
    (h : x ∈ l.dropWhile p) : x ∈ l := by
  induction l with
  | nil => exact h
  | cons a t ih =>
    rw [List.dropWhile_cons] at h
    by_cases ha : p a = true
    · rw [if_pos ha] at h
      exact List.mem_cons_of_mem _ (ih h)
    · rw [if_neg ha] at h
      exact h

theorem mem_of_mem_takeWhile (p : Char → Bool) (x : Char) (l : List Char)
    (h : x ∈ l.takeWhile p) : x ∈ l := by
  induction l with
  | nil => exact h
  | cons a t ih =>
    rw [List.takeWhile_cons] at h
    by_cases ha : p a = true
    · rw [if_pos ha] at h
      rcases List.mem_cons.mp h with rfl | h2
      · exact List.mem_cons_self _ _
      · exact List.mem_cons_of_mem _ (ih h2)
    · rw [if_neg ha] at h
      cases h

theorem pred_of_mem_takeWhile (p : Char → Bool) (x : Char) (l : List Char)
    (h : x ∈ l.takeWhile p) : p x = true := by
  induction l with
  | nil => cases h
  | cons a t ih =>
    rw [List.takeWhile_cons] at h
    by_cases ha : p a = true
    · rw [if_pos ha] at h
      rcases List.mem_cons.mp h with rfl | h2
      · exact ha
      · exact ih h2
    · rw [if_neg ha] at h
      cases h

theorem mem_of_mem_dropTrailWs (x : Char) (l : List Char) (h : x ∈ dropTrailWs l) :
    x ∈ l := by
  obtain ⟨t, ht, -⟩ := dropTrailWs_decomp l
  rw [ht]
  exact List.mem_append_left _ h

theorem mem_of_mem_pyStrip (x : Char) (l : List Char) (h : x ∈ pyStrip l) : x ∈ l := by
  unfold pyStrip at h
  exact mem_of_mem_dropTrailWs _ _ (mem_of_mem_dropWhile _ _ _ h)

theorem takeWhile_hash_append (a t : List Char) (h : '#' ∈ a) :
    (a ++ t).takeWhile (fun ch => ch != '#') = a.takeWhile (fun ch => ch != '#') := by
  induction a with
  | nil => cases h
  | cons x xs ih =>
    rw [List.cons_append, List.takeWhile_cons, List.takeWhile_cons]
    by_cases hx : (x != '#') = true
    · rw [if_pos hx, if_pos hx]
      have hxs : '#' ∈ xs := by
        rcases List.mem_cons.mp h with hh | h2
        · rw [← hh] at hx
          simp at hx
        · exact h2
      rw [ih hxs]
    · rw [if_neg hx, if_neg hx]

theorem hash_mem_dropTrailWs (l : List Char) (h : '#' ∈ l) : '#' ∈ dropTrailWs l := by
  obtain ⟨t, ht, hws⟩ := dropTrailWs_decomp l
  rw [ht] at h
  rcases List.mem_append.mp h with h2 | h2
  · exact h2
  · exact absurd (hws _ h2) (by decide)

theorem takeWhile_hash_dropTrailWs (l : List Char) (h : '#' ∈ l) :
    (dropTrailWs l).takeWhile (fun ch => ch != '#')
      = l.takeWhile (fun ch => ch != '#') := by
  obtain ⟨t, ht, hws⟩ := dropTrailWs_decomp l
  conv_rhs => rw [ht]
  rw [takeWhile_hash_append _ _ (hash_mem_dropTrailWs l h)]

theorem pyIsSpace_ne_hash : ∀ x : Char, pyIsSpace x = true → (x != '#') = true := by
  intro x hx
  simp only [pyIsSpace, Bool.or_eq_true, decide_eq_true_eq] at hx
  rcases hx with (((((h | h) | h) | h) | h) | h) <;> subst h <;> decide

/-- Key truncation lemma: on a command containing `#` but no `=` (so the
assignment-token strip cannot interact with the comment strip),
normalization of the command and of its prefix before the first `#`
coincide. -/
theorem extract_hash_prefix (c : List Char) (heq : ('=' ∈ c) → False) (hh : '#' ∈ c) :
    extract_main_command c
      = extract_main_command (c.takeWhile (fun ch => ch != '#')) := by
  have hc1 : (pyStrip c).contains '=' = false := by
    rw [Bool.eq_false_iff]
    intro hcon
    exact heq (mem_of_mem_pyStrip _ _ ((char_contains_iff _ _).mp hcon))
  have hhash1 : (pyStrip c).contains '#' = true := by
    apply (char_contains_iff _ _).mpr
    unfold pyStrip
    exact mem_dropWhile_of_mem _ _ _ (hash_mem_dropTrailWs c hh) (by decide)
  have hcond1 : ¬(((pyStrip c).contains '=' && !((pyStrip c).head? == some '=')) = true) := by
    intro hcon
    rw [hc1] at hcon
    simp at hcon
  have hL : extract_main_command c = pyStrip (c.takeWhile (fun ch => ch != '#')) := by
    simp only [extract_main_command]
    rw [if_neg hcond1, if_pos hhash1, pyStrip_pyStrip]
    unfold pyStrip
    rw [takeWhile_dropWhile_comm _ _ pyIsSpace_ne_hash, takeWhile_hash_dropTrailWs c hh,
      dropTrailWs_dropWhile_comm, dropWhile_dropWhile]
  have hp_noeq : (pyStrip (c.takeWhile (fun ch => ch != '#'))).contains '=' = false := by
    rw [Bool.eq_false_iff]
    intro hcon
    exact heq (mem_of_mem_takeWhile _ _ _
      (mem_of_mem_pyStrip _ _ ((char_contains_iff _ _).mp hcon)))
  have hp_nohash : (pyStrip (c.takeWhile (fun ch => ch != '#'))).contains '#' = false := by
    rw [Bool.eq_false_iff]
    intro hcon
    have h2 := pred_of_mem_takeWhile _ _ _
      (mem_of_mem_pyStrip _ _ ((char_contains_iff _ _).mp hcon))
    simp at h2
  have hcondA : ¬(((pyStrip (c.takeWhile (fun ch => ch != '#'))).contains '='
      && !((pyStrip (c.takeWhile (fun ch => ch != '#'))).head? == some '=')) = true) := by
    intro hcon
    rw [hp_noeq] at hcon
    simp at hcon
  have hcondB : ¬((pyStrip (c.takeWhile (fun ch => ch != '#'))).contains '#' = true) := by
    intro hcon
    rw [hp_nohash] at hcon
    simp at hcon
  have hR : extract_main_command (c.takeWhile (fun ch => ch != '#'))
      = pyStrip (c.takeWhile (fun ch => ch != '#')) := by
    simp only [extract_main_command]
    rw [if_neg hcondA, if_neg hcondB]
    exact pyStrip_pyStrip _
  rw [hL, hR]

/-- Claim C10 is false as stated: on `X=1#q rm -rf /` the assignment-token
strip (which happens before the comment strip, and sees the text after `#`)
removes `X=1#q`, so the code classifies the command dangerous, while on the
prefix before the first `#` (`X=1`) it does not — the two checks do not in
general behave as on that prefix. -/
theorem C10_counterexample :
    check_dangerous_command ("X=1#q rm -rf /").data = (true, ("删除命令").data)
    ∧ ("X=1#q rm -rf /").data.takeWhile (fun ch => ch != '#') = ("X=1").data
    ∧ check_dangerous_command ("X=1").data = (false, []) :=
  ⟨by decide, by decide, by decide⟩

/-- A decidable model of the compiled default deny rule `.*;\s*rm\s+-rf`
tested at one position: `;`, optional whitespace, `rm`, mandatory
whitespace, `-rf` (up to further whitespace). -/
def chainRmAt (l : List Char) : Bool :=
  match l with
  | c :: rest =>
    c = ';' && (match rest.dropWhile pyIsSpace with
      | a :: b :: r2 => a = 'r' && b = 'm' &&
          (match r2 with
           | d :: r3 => pyIsSpace d && ("-rf").data.isPrefixOf (r3.dropWhile pyIsSpace)
           | [] => false)
      | _ => false)
  | [] => false

/-- Search of `chainRmAt` at every position (models `regex.search`, and
also `regex.match` since the pattern starts with `.*`). -/
def chainRmSearch : List Char → Bool
  | [] => false
  | c :: rest => chainRmAt (c :: rest) || chainRmSearch rest

/-- A filter carrying only the default chained-`rm` deny rule. -/
def chainFilter : CommandFilter :=
  CommandFilter.init [] [(".*;\\s*rm\\s+-rf").data]
    (fun _ => some { matchStart := chainRmSearch, search := chainRmSearch })

/-- The command `echo 'a#'; rm -rf /`: its dangerous suffix follows a `#`
inside single quotes. -/
def quotedHashCmd : List Char :=
  ("echo ").data ++ [squote] ++ ("a#").data ++ [squote] ++ ("; rm -rf /").data

/-- Claim C10 amended: the quote-ignorant truncation at the first `#` is
applied to the whitespace-stripped, assignment-stripped command, not to the
raw command; for every command containing `#` but no `=` (so the assignment
strip cannot interact) both checks do behave exactly as on the prefix
before the first `#`.  Consequently `echo 'a#'; rm -rf /` — whose dangerous
suffix `; rm -rf /` follows a quoted `#`, and which the chained-`rm` deny
rule matches when applied to the raw text — passes both the dangerous-
command check and the allow/deny evaluation under that rule. -/
theorem C10_hash_truncation (c : List Char) (heq : ('=' ∈ c) → False) (hh : '#' ∈ c) :
    (check_dangerous_command c
        = check_dangerous_command (c.takeWhile (fun ch => ch != '#'))
      ∧ ∀ f : CommandFilter,
          f.is_allowed c = f.is_allowed (c.takeWhile (fun ch => ch != '#')))
    ∧ (check_dangerous_command quotedHashCmd = (false, [])
      ∧ (chainFilter.is_allowed quotedHashCmd).1 = true
      ∧ hasSub ("; rm -rf /").data quotedHashCmd = true
      ∧ chainRmSearch quotedHashCmd = true) := by
  have hex := extract_hash_prefix c heq hh
  refine ⟨⟨?_, ?_⟩, by decide, by decide, by decide, by decide⟩
  · simp only [check_dangerous_command, hex]
  · intro f
    simp only [CommandFilter.is_allowed, hex]

/-- Witness for `C10_hash_truncation` at the quoted-`#` command itself. -/
theorem C10_hash_truncation_witness :
    check_dangerous_command quotedHashCmd
      = check_dangerous_command (quotedHashCmd.takeWhile (fun ch => ch != '#'))
    ∧ (chainFilter.is_allowed quotedHashCmd).1 = true :=
  ⟨((C10_hash_truncation quotedHashCmd (by decide) (by decide)).1).1,
    ((C10_hash_truncation quotedHashCmd (by decide) (by decide)).2).2.1⟩

/-! ## Claim C8 -/

theorem beq_list_char_iff (a b : List Char) : (a == b) = true ↔ a = b := by
  simp

theorem cleanup_sessions (st : SessionState) (sid : List Char) :
    (SessionManager.cleanup_session st sid).1.sessions
      = st.sessions.filter (fun e => !(e.1 == sid)) := by
  unfold SessionManager.cleanup_session
  cases hget : dictGet st.sessions sid with
  | some s => rfl
  | none =>
    have hfind : st.sessions.find? (fun e => e.1 == sid) = none := by
      have := hget
      unfold dictGet at this
      exact Option.map_eq_none'.mp this
    have hall : ∀ e ∈ st.sessions, (!(e.1 == sid)) = true := by
      intro e he
      have h2 := List.find?_eq_none.mp hfind e he
      cases hb : (e.1 == sid) with
      | true => exact absurd hb h2
      | false => simp [hb]
    simp only
    exact (List.filter_eq_self.mpr hall).symm

theorem cleanup_timeout (st : SessionState) (sid : List Char) :
    (SessionManager.cleanup_session st sid).1.session_timeout = st.session_timeout := by
  unfold SessionManager.cleanup_session
  cases dictGet st.sessions sid <;> rfl

theorem cleanup_closed (st : SessionState) (sid : List Char) :
    (SessionManager.cleanup_session st sid).2
      = (dictGet st.sessions sid).elim [] (fun s => s.ssh_client.toList) := by
  unfold SessionManager.cleanup_session
  cases dictGet st.sessions sid <;> rfl

theorem sweepFold_cons (st : SessionState) (cs : List Nat) (sid : List Char)
    (rest : List (List Char)) :
    sweepFold (st, cs) (sid :: rest)
      = sweepFold ((SessionManager.cleanup_session st sid).1,
          cs ++ (SessionManager.cleanup_session st sid).2) rest := rfl

theorem sweepFold_state (sids : List (List Char)) : ∀ (st : SessionState) (cs : List Nat),
    (sweepFold (st, cs) sids).1
      = { sessions := st.sessions.filter (fun e => !(sids.contains e.1)),
          session_timeout := st.session_timeout } := by
  induction sids with
  | nil =>
    intro st cs
    cases st with
    | mk sessions timeout => simp [sweepFold]
  | cons sid rest ih =>
    intro st cs
    rw [sweepFold_cons, ih]
    have hclean := cleanup_sessions st sid
    have hcleanT := cleanup_timeout st sid
    rw [hclean, hcleanT]
    congr 1
    rw [List.filter_filter]
    apply List.filter_congr
    intro e hmem
    by_cases heq : e.1 = sid <;> simp [heq, List.contains_cons]

theorem dictGet_filter_nc (m : List (List Char × Session)) (sids : List (List Char))
    (k : List Char) (hk : sids.contains k = false) :
    dictGet (m.filter (fun e => !(sids.contains e.1))) k = dictGet m k := by
  induction m with
  | nil => rfl
  | cons e m ih =>
    by_cases he : (e.1 == k) = true
    · have heq : e.1 = k := (beq_list_char_iff _ _).mp he
      have hkeep : (!(sids.contains e.1)) = true := by rw [heq, hk]; rfl
      rw [List.filter_cons, if_pos hkeep]
      simp [dictGet, List.find?, he]
    · rw [List.filter_cons]
      have hef := Bool.eq_false_iff.mpr he
      by_cases hkeep : (!(sids.contains e.1)) = true
      · rw [if_pos hkeep]
        simp only [dictGet] at ih ⊢
        simp only [List.find?, hef]
        exact ih
      · rw [if_neg hkeep]
        simp only [dictGet] at ih ⊢
        rw [show List.find? (fun x => x.1 == k) (e :: m)
            = List.find? (fun x => x.1 == k) m from by simp [List.find?, hef]]
        exact ih

theorem dictGet_filter_evicted (m : List (List Char × Session)) (sids : List (List Char))
    (k : List Char) (hk : sids.contains k = true) :
    dictGet (m.filter (fun e => !(sids.contains e.1))) k = none := by
  unfold dictGet
  rw [List.find?_eq_none.mpr ?_]
  · rfl
  · intro e he hbeq
    have hkeep := (List.mem_filter.mp he).2
    have heq : e.1 = k := (beq_list_char_iff _ _).mp hbeq
    rw [heq, hk] at hkeep
    cases hkeep

theorem dictGet_del_ne (m : List (List Char × Session)) (k k2 : List Char) (h : k2 ≠ k) :
    dictGet (m.filter (fun e => !(e.1 == k))) k2 = dictGet m k2 := by
  induction m with
  | nil => rfl
  | cons e m ih =>
    by_cases he : (e.1 == k2) = true
    · have heq : e.1 = k2 := (beq_list_char_iff _ _).mp he
      have hkeep : (!(e.1 == k)) = true := by
        simp [heq, h]
      rw [List.filter_cons, if_pos hkeep]
      simp [dictGet, List.find?, he]
    · rw [List.filter_cons]
      have hef := Bool.eq_false_iff.mpr he
      by_cases hkeep : (!(e.1 == k)) = true
      · rw [if_pos hkeep]
        simp only [dictGet] at ih ⊢
        simp only [List.find?, hef]
        exact ih
      · rw [if_neg hkeep]
        simp only [dictGet] at ih ⊢
        rw [show List.find? (fun x => x.1 == k2) (e :: m)
            = List.find? (fun x => x.1 == k2) m from by simp [List.find?, hef]]
        exact ih

theorem dictGet_of_mem_nodup (m : List (List Char × Session)) (e : List Char × Session)
    (hnd : (m.map (fun x => x.1)).Nodup) (he : e ∈ m) : dictGet m e.1 = some e.2 := by
  induction m with
  | nil => cases he
  | cons a t ih =>
    rcases List.mem_cons.mp he with rfl | he2
    · simp [dictGet, List.find?]
    · have hne : a.1 ≠ e.1 := by
        intro hh
        have h1 : e.1 ∈ t.map (fun x => x.1) := List.mem_map_of_mem _ he2
        have h0 := (List.nodup_cons.mp hnd).1
        rw [← hh] at h1
        exact h0 h1
      have hbeq : (a.1 == e.1) = false := by
        simp [hne]
      simp only [dictGet, List.find?, hbeq]
      exact ih (List.nodup_cons.mp hnd).2 he2

theorem mem_of_dictGet (m : List (List Char × Session)) (k : List Char) (s : Session)
    (h : dictGet m k = some s) : (k, s) ∈ m := by
  unfold dictGet at h
  obtain ⟨e, hfind, h2⟩ := Option.map_eq_some'.mp h
  have hpred := List.find?_some hfind
  have hmem := List.mem_of_find?_eq_some hfind
  have heq : e.1 = k := (beq_list_char_iff _ _).mp hpred
  have : e = (k, s) := by
    cases e
    simp only at heq h2
    rw [heq, h2]
  rw [← this]
  exact hmem

theorem filterMap_congr_mem {α β : Type} (l : List α) (f g : α → Option β)
    (h : ∀ a ∈ l, f a = g a) : l.filterMap f = l.filterMap g := by
  induction l with
  | nil => rfl
  | cons a t ih =>
    rw [List.filterMap_cons, List.filterMap_cons, h a (List.mem_cons_self _ _),
      ih (fun x hx => h x (List.mem_cons_of_mem _ hx))]

theorem sweepFold_closed (sids : List (List Char)) : ∀ (st : SessionState) (cs : List Nat),
    sids.Nodup →
    (sweepFold (st, cs) sids).2
      = cs ++ sids.filterMap
          (fun sid => (dictGet st.sessions sid).bind (fun s => s.ssh_client)) := by
  induction sids with
  | nil =>
    intro st cs _
    simp [sweepFold]
  | cons sid rest ih =>
    intro st cs hnd
    rw [sweepFold_cons, ih _ _ (List.nodup_cons.mp hnd).2]
    have hrest : ∀ r ∈ rest,
        dictGet (SessionManager.cleanup_session st sid).1.sessions r
          = dictGet st.sessions r := by
      intro r hr
      have hne : r ≠ sid := by
        intro hh
        exact (List.nodup_cons.mp hnd).1 (hh ▸ hr)
      rw [cleanup_sessions]
      exact dictGet_del_ne st.sessions sid r hne
    have hfm : rest.filterMap
          (fun sid2 => (dictGet (SessionManager.cleanup_session st sid).1.sessions sid2).bind
            (fun s => s.ssh_client))
        = rest.filterMap
            (fun sid2 => (dictGet st.sessions sid2).bind (fun s => s.ssh_client)) :=
      filterMap_congr_mem _ _ _ (fun r hr => by rw [hrest r hr])
    rw [hfm, cleanup_closed]
    cases hget : dictGet st.sessions sid with
    | none => simp [List.filterMap_cons, hget]
    | some s =>
      cases hssh : s.ssh_client with
      | none => simp [List.filterMap_cons, hget, hssh, Option.toList]
      | some c => simp [List.filterMap_cons, hget, hssh, Option.toList, List.append_assoc]

theorem dictGet_append_ne (m : List (List Char × Session)) (k k2 : List Char) (s : Session)
    (h : k2 ≠ k) : dictGet (m ++ [(k, s)]) k2 = dictGet m k2 := by
  induction m with
  | nil =>
    have hb : ((k == k2) : Bool) = false := by
      simp
      exact fun hh => h hh.symm
    simp [dictGet, List.find?, hb]
  | cons e m ih =>
    by_cases he : (e.1 == k2) = true
    · simp [dictGet, List.find?, he]
    · simp only [dictGet] at ih ⊢
      simp only [List.cons_append, List.find?, Bool.eq_false_iff.mpr he]
      exact ih

theorem dictGet_update_other (m : List (List Char × Session)) (k k2 : List Char) (s : Session)
    (h : k2 ≠ k) :
    dictGet (m.map (fun e => if e.1 == k then (e.1, s) else e)) k2 = dictGet m k2 := by
  induction m with
  | nil => rfl
  | cons e m ih =>
    simp only [List.map_cons]
    by_cases hek : (e.1 == k) = true
    · rw [if_pos hek]
      have heq : e.1 = k := (beq_list_char_iff _ _).mp hek
      have hne2 : ((e.1 == k2) : Bool) = false := by
        simp [heq]
        exact fun hh => h hh.symm
      simp only [dictGet] at ih ⊢
      simp only [List.find?, hne2]
      exact ih
    · rw [if_neg hek]
      by_cases he2 : (e.1 == k2) = true
      · simp [dictGet, List.find?, he2]
      · simp only [dictGet] at ih ⊢
        simp only [List.find?, Bool.eq_false_iff.mpr he2]
        exact ih

theorem expired_keys_nodup (st : SessionState) (t2 : Int)
    (hnd : (st.sessions.map (fun e => e.1)).Nodup) : (expiredIds st t2).Nodup := by
  have hsub : (expiredIds st t2).Sublist (st.sessions.map (fun e => e.1)) := by
    unfold expiredIds
    exact (List.filter_sublist _).map _
  exact hnd.sublist hsub

theorem count_filterMap_unique (sids : List (List Char)) (g : List Char → Option Nat)
    (c : Nat) (k : List Char) (hnd : sids.Nodup) (hk : k ∈ sids) (hgk : g k = some c)
    (hother : ∀ k2 ∈ sids, k2 ≠ k → g k2 ≠ some c) :
    (sids.filterMap g).count c = 1 := by
  induction sids with
  | nil => cases hk
  | cons a rest ih =>
    rcases List.mem_cons.mp hk with heq | hk2
    · have hgk2 : g a = some c := by rw [← heq]; exact hgk
      simp only [List.filterMap_cons, hgk2]
      have h0 : c ∉ rest.filterMap g := by
        intro hmem
        obtain ⟨k2, hk2mem, hg2⟩ := List.mem_filterMap.mp hmem
        have hne : k2 ≠ k := by
          intro hh
          have hmem2 : a ∈ rest := by rw [← heq, ← hh]; exact hk2mem
          exact (List.nodup_cons.mp hnd).1 hmem2
        exact hother k2 (List.mem_cons_of_mem _ hk2mem) hne hg2
      rw [List.count_cons_self, List.count_eq_zero.mpr h0]
    · have hane : a ≠ k := by
        intro hh
        exact (List.nodup_cons.mp hnd).1 (hh ▸ hk2)
      have hga : g a ≠ some c := hother a (List.mem_cons_self _ _) hane
      have hrec := ih (List.nodup_cons.mp hnd).2 hk2
        (fun k2 h2 hn => hother k2 (List.mem_cons_of_mem _ h2) hn)
      cases hg : g a with
      | none =>
        simp only [List.filterMap_cons, hg]
        exact hrec
      | some b =>
        have hbc : b ≠ c := by
          intro hh
          exact hga (hh ▸ hg)
        simp only [List.filterMap_cons, hg]
        rw [List.count_cons_of_ne (Ne.symm hbc), hrec]

/-- Claim C8: `get_session` first sweeps the store, evicting every session
whose idle time exceeds the timeout and closing its remote connection
(close errors are ignored in the model); then: called again for an id whose
session's `last_used` is within the timeout it returns that same session
record with only `last_used` refreshed; called after the timeout has
elapsed it returns a brand-new session while the prior session's remote
connection is closed exactly once; every other expired id is absent from
the store afterwards, and every evicted session's connection appears in the
closed list. -/
theorem C8_get_session (st : SessionState) (t1 t2 : Int) (sid : List Char)
    (host username : Option (List Char)) (s1 : Session)
    (hnd : (st.sessions.map (fun e => e.1)).Nodup)
    (hget : dictGet st.sessions sid = some s1)
    (hlast : s1.last_used = t1) :
    (t2 - t1 ≤ st.session_timeout →
      (SessionManager.get_session st t2 sid host username).1 = { s1 with last_used := t2 })
    ∧ (t2 - t1 > st.session_timeout →
        (SessionManager.get_session st t2 sid host username).1
          = { host := host, username := username, ssh_client := none,
              created := t2, last_used := t2, local_env := [] }
        ∧ ∀ c, s1.ssh_client = some c →
            (∀ e ∈ st.sessions, e.1 ≠ sid → e.2.ssh_client ≠ some c) →
            (SessionManager.get_session st t2 sid host username).2.2.count c = 1)
    ∧ (∀ e ∈ st.sessions, sessionExpired t2 st.session_timeout e.2 = true → e.1 ≠ sid →
        dictGet (SessionManager.get_session st t2 sid host username).2.1.sessions e.1 = none)
    ∧ (∀ e ∈ st.sessions, sessionExpired t2 st.session_timeout e.2 = true →
        ∀ c, e.2.ssh_client = some c →
          c ∈ (SessionManager.get_session st t2 sid host username).2.2) := by
  have hswept1 : (sweepFold (st, ([] : List Nat)) (expiredIds st t2)).1
      = { sessions := st.sessions.filter (fun e => !((expiredIds st t2).contains e.1)),
          session_timeout := st.session_timeout } := sweepFold_state _ st []
  have hEnodup : (expiredIds st t2).Nodup := expired_keys_nodup st t2 hnd
  have hclosed : (sweepFold (st, ([] : List Nat)) (expiredIds st t2)).2
      = (expiredIds st t2).filterMap
          (fun sid2 => (dictGet st.sessions sid2).bind (fun s => s.ssh_client)) := by
    simpa using sweepFold_closed (expiredIds st t2) st [] hEnodup
  have hmem1 : (sid, s1) ∈ st.sessions := mem_of_dictGet _ _ _ hget
  refine ⟨?_, ?_, ?_, ?_⟩
  · -- (i) within the timeout: same session, last_used refreshed
    intro hle
    have hnotin : (expiredIds st t2).contains sid = false := by
      cases hc : (expiredIds st t2).contains sid with
      | false => rfl
      | true =>
        exfalso
        have hmemE : sid ∈ expiredIds st t2 := (contains_iff_mem _ _).mp hc
        obtain ⟨e, heF, heq⟩ := List.mem_map.mp hmemE
        have heS := (List.mem_filter.mp heF).1
        have hexp := (List.mem_filter.mp heF).2
        have hdg := dictGet_of_mem_nodup st.sessions e hnd heS
        rw [heq] at hdg
        rw [hdg] at hget
        have he2 : e.2 = s1 := Option.some.inj hget
        rw [he2] at hexp
        unfold sessionExpired at hexp
        rw [hlast] at hexp
        simp only [decide_eq_true_eq] at hexp
        omega
    have hdg : dictGet (sweepFold (st, ([] : List Nat)) (expiredIds st t2)).1.sessions sid
        = some s1 := by
      rw [hswept1]
      exact (dictGet_filter_nc st.sessions (expiredIds st t2) sid hnotin).trans hget
    simp only [SessionManager.get_session, hdg]
  · -- (ii) after the timeout: fresh session, prior connection closed exactly once
    intro hgt
    have hin : sid ∈ expiredIds st t2 := by
      apply List.mem_map.mpr
      refine ⟨(sid, s1), List.mem_filter.mpr ⟨hmem1, ?_⟩, rfl⟩
      unfold sessionExpired
      simp only [hlast, decide_eq_true_eq]
      omega
    have hcontains := (contains_iff_mem _ _).mpr hin
    have hdg : dictGet (sweepFold (st, ([] : List Nat)) (expiredIds st t2)).1.sessions sid
        = none := by
      rw [hswept1]
      exact dictGet_filter_evicted st.sessions (expiredIds st t2) sid hcontains
    constructor
    · simp only [SessionManager.get_session, hdg]
    · intro c hc hother
      have h22 : (SessionManager.get_session st t2 sid host username).2.2
          = (sweepFold (st, ([] : List Nat)) (expiredIds st t2)).2 := by
        simp only [SessionManager.get_session, hdg]
      rw [h22, hclosed]
      apply count_filterMap_unique _ _ c sid hEnodup hin
      · simp only [hget, Option.some_bind]
        exact hc
      · intro k2 hk2 hne
        cases hdk : dictGet st.sessions k2 with
        | none => simp [hdk]
        | some s2 =>
          have hm2 := mem_of_dictGet _ _ _ hdk
          have hs2 := hother (k2, s2) hm2 hne
          simp only [hdk, Option.some_bind]
          exact hs2
  · -- (iii) other expired ids are gone
    intro e he hexp hne
    have heinE : e.1 ∈ expiredIds st t2 :=
      List.mem_map.mpr ⟨e, List.mem_filter.mpr ⟨he, hexp⟩, rfl⟩
    have hcontE := (contains_iff_mem _ _).mpr heinE
    have hnoneSwept :
        dictGet (sweepFold (st, ([] : List Nat)) (expiredIds st t2)).1.sessions e.1 = none := by
      rw [hswept1]
      exact dictGet_filter_evicted _ _ _ hcontE
    cases hdg : dictGet (sweepFold (st, ([] : List Nat)) (expiredIds st t2)).1.sessions sid with
    | none =>
      have h21 : (SessionManager.get_session st t2 sid host username).2.1.sessions
          = (sweepFold (st, ([] : List Nat)) (expiredIds st t2)).1.sessions
            ++ [(sid, { host := host, username := username, ssh_client := none,
                        created := t2, last_used := t2, local_env := [] })] := by
        simp only [SessionManager.get_session, hdg]
      rw [h21, dictGet_append_ne _ _ _ _ hne, hnoneSwept]
    | some s =>
      have h21 : (SessionManager.get_session st t2 sid host username).2.1.sessions
          = (sweepFold (st, ([] : List Nat)) (expiredIds st t2)).1.sessions.map
              (fun x => if x.1 == sid then (x.1, { s with last_used := t2 }) else x) := by
        simp only [SessionManager.get_session, hdg]
      rw [h21, dictGet_update_other _ _ _ _ hne, hnoneSwept]
  · -- (iv) each evicted session's connection appears in the closed list
    intro e he hexp c hc
    have h22 : (SessionManager.get_session st t2 sid host username).2.2
        = (sweepFold (st, ([] : List Nat)) (expiredIds st t2)).2 := by
      cases hdg : dictGet (sweepFold (st, ([] : List Nat)) (expiredIds st t2)).1.sessions sid with
      | none => simp only [SessionManager.get_session, hdg]
      | some s => simp only [SessionManager.get_session, hdg]
    rw [h22, hclosed]
    apply List.mem_filterMap.mpr
    refine ⟨e.1, List.mem_map.mpr ⟨e, List.mem_filter.mpr ⟨he, hexp⟩, rfl⟩, ?_⟩
    rw [dictGet_of_mem_nodup st.sessions e hnd he]
    simpa using hc

/-- A session holding remote connection 7, last used at time 0. -/
def staleSession : Session :=
  { host := none, username := none, ssh_client := some 7, created := 0, last_used := 0,
    local_env := [] }

/-- A store holding only `s1 ↦ staleSession` with the default 1200s timeout. -/
def staleStore : SessionState :=
  { sessions := [(("s1").data, staleSession)], session_timeout := 1200 }

/-- Witness for `C8_get_session`: within the timeout the same record comes
back with `last_used` refreshed; after the timeout a fresh session is
returned and connection 7 is closed exactly once. -/
theorem C8_get_session_witness :
    (SessionManager.get_session staleStore 100 (("s1").data) none none).1
      = { staleSession with last_used := 100 }
    ∧ (SessionManager.get_session staleStore 2000 (("s1").data) none none).1
      = { host := none, username := none, ssh_client := none, created := 2000,
          last_used := 2000, local_env := [] }
    ∧ (SessionManager.get_session staleStore 2000 (("s1").data) none none).2.2.count 7 = 1 := by
  have hin := (C8_get_session staleStore 0 100 (("s1").data) none none staleSession
    (by decide) rfl rfl).1 (by decide)
  have hout := (C8_get_session staleStore 0 2000 (("s1").data) none none staleSession
    (by decide) rfl rfl).2.1 (by decide)
  exact ⟨hin, hout.1, hout.2 7 rfl (by decide)⟩
